import Mathlib

/-!
Verification development for the cuti prompt-queue and account-manager
repository.  The queue core (models, processor loop, storage) is shipped
without its implementation files in this tree, so those definitions are
modelled from the specification (and exercised against the shipped test
suite in tests/test_queue.py); the account manager and the websocket
broadcast are translated directly from
src/cuti/services/claude_account_manager.py and
src/cuti/web/api/websocket.py.
-/

namespace Cuti

/-- Modelled from the spec: prompt lifecycle status of cuti.core.models
(file absent from the tree).  One of QUEUED, EXECUTING, COMPLETED,
FAILED, CANCELLED, RATE_LIMITED. -/
inductive PromptStatus where
| queued
| executing
| completed
| failed
| cancelled
| rateLimited
deriving DecidableEq, Repr

/-- Modelled from the spec: the QueuedPrompt record of cuti.core.models
(file absent from the tree): content, integer priority (lower is sooner),
working directory, context files, creation timestamp, retry count, maximum
retries, status, execution log, optional rate-limit reset timestamp and
rate-limited-at marker, optional last error and estimated tokens. -/
structure QueuedPrompt where
  id : String
  content : String
  priority : Int
  workingDir : String
  contextFiles : List String
  createdAt : Nat
  retryCount : Int
  maxRetries : Int
  status : PromptStatus
  executionLog : List String
  resetTime : Option Nat
  rateLimitedAt : Option Nat
  lastError : Option String
  estimatedTokens : Option Nat
deriving DecidableEq, Repr

/-- Modelled from the spec: RateLimitInfo of cuti.core.models (file absent
from the tree): a flag, an optional reset timestamp, an optional message. -/
structure RateLimitInfo where
  isRateLimited : Bool
  resetTime : Option Nat
  limitMessage : Option String
deriving DecidableEq, Repr

/-- Modelled from the spec: ExecutionResult of cuti.core.models (file
absent from the tree): success flag, captured output, captured error,
duration, optional rate-limit info, optional exit code. -/
structure ExecutionResult where
  success : Bool
  output : String
  error : Option String
  executionTime : Nat
  rateLimitInfo : Option RateLimitInfo
  exitCode : Option Int
deriving DecidableEq, Repr

/-- Modelled from the spec: QueueState of cuti.core.models (file absent
from the tree): the ordered prompt collection plus the global counters. -/
structure QueueState where
  prompts : List QueuedPrompt
  totalProcessed : Nat
  failedCount : Nat
  rateLimitedCount : Nat
  lastProcessed : Option Nat
deriving DecidableEq, Repr

/-- Modelled from the spec: QueuedPrompt.can_retry (cuti.core.models is
absent from the tree): status in FAILED or RATE_LIMITED and
retry_count strictly below max_retries. -/
def canRetry (p : QueuedPrompt) : Bool :=
  (p.status = PromptStatus.failed || p.status = PromptStatus.rateLimited)
    && p.retryCount < p.maxRetries

/-- Modelled from the spec: whether an execution result carries a
rate-limit classification. -/
def isRateLimitedResult (r : ExecutionResult) : Bool :=
  match r.rateLimitInfo with
  | some i => i.isRateLimited
  | none => false

/-- Modelled from the spec: the strict selection order of next(), lower
priority value first, ties broken by earlier creation timestamp. -/
def betterPrompt (p q : QueuedPrompt) : Bool :=
  p.priority < q.priority || (p.priority = q.priority && p.createdAt < q.createdAt)

/-- Modelled from the spec: minimum of a list of prompts under the
selection order, keeping the earlier listed prompt on full ties. -/
def selectMin (best : QueuedPrompt) : List QueuedPrompt → QueuedPrompt
| [] => best
| q :: rest => selectMin (if betterPrompt q best then q else best) rest

/-- Modelled from the spec: the QUEUED prompts of a state, in order. -/
def queuedOf (s : QueueState) : List QueuedPrompt :=
  s.prompts.filter (fun p => p.status = PromptStatus.queued)

/-- Modelled from the spec: QueueState.get_next_prompt (cuti.core.models
is absent from the tree): among QUEUED prompts, the one with the lowest
priority value, ties broken by earliest creation timestamp; none if no
prompt is QUEUED. -/
def getNextPrompt (s : QueueState) : Option QueuedPrompt :=
  match queuedOf s with
  | [] => none
  | h :: t => some (selectMin h t)

/-- Modelled from the spec: promotion of a single RATE_LIMITED prompt
back to QUEUED once its reset timestamp is in the past. -/
def promoteOne (now : Nat) (p : QueuedPrompt) : QueuedPrompt :=
  match p.status, p.resetTime with
  | PromptStatus.rateLimited, some t =>
      if t ≤ now then { p with status := PromptStatus.queued } else p
  | _, _ => p

/-- Modelled from the spec: QueueProcessor._check_rate_limited_prompts
(cuti.core.queue is absent from the tree): every RATE_LIMITED prompt
whose reset time has passed becomes QUEUED. -/
def promoteRateLimited (now : Nat) (s : QueueState) : QueueState :=
  { s with prompts := s.prompts.map (promoteOne now) }

/-- Modelled from the spec: the resumption convention.  A prompt that was
previously rate limited (its rate-limited marker is set) is submitted to
the executor as the literal token continue; otherwise its content is
submitted. -/
def submittedContent (p : QueuedPrompt) : String :=
  if p.rateLimitedAt.isSome then "continue" else p.content

/-- Modelled from the spec: step 4 of the processor loop, marking the
picked prompt EXECUTING. -/
def markExecuting (pid : String) (s : QueueState) : QueueState :=
  { s with prompts := s.prompts.map (fun q =>
      if q.id = pid then { q with status := PromptStatus.executing } else q) }

/-- Modelled from the spec: the per-prompt effect of the transition table
of the state machine on an execution result.  Success completes the
prompt; a rate-limited result records the reset time, marks the prompt
rate limited and increments its retry count; any other failure marks it
FAILED, increments its retry count and clears the rate-limited marker so
that subsequent retries submit the original content again. -/
def resolvePrompt (now : Nat) (r : ExecutionResult) (p : QueuedPrompt) : QueuedPrompt :=
  if r.success then
    { p with status := PromptStatus.completed, rateLimitedAt := none }
  else if isRateLimitedResult r then
    { p with status := PromptStatus.rateLimited,
             resetTime := (match r.rateLimitInfo with
               | some i => i.resetTime
               | none => none),
             rateLimitedAt := some now,
             retryCount := p.retryCount + 1 }
  else
    { p with status := PromptStatus.failed,
             retryCount := p.retryCount + 1,
             lastError := r.error,
             rateLimitedAt := none }

/-- Modelled from the spec: the whole-state effect of resolving the
execution result of the prompt with the given id, including the counter
side effects of the transition table. -/
def applyResult (now : Nat) (pid : String) (r : ExecutionResult) (s : QueueState) : QueueState :=
  { s with
    prompts := s.prompts.map (fun q => if q.id = pid then resolvePrompt now r q else q),
    totalProcessed := if r.success then s.totalProcessed + 1 else s.totalProcessed,
    lastProcessed := if r.success then some now else s.lastProcessed,
    rateLimitedCount :=
      if !r.success && isRateLimitedResult r then s.rateLimitedCount + 1
      else s.rateLimitedCount,
    failedCount :=
      if !r.success && !isRateLimitedResult r then s.failedCount + 1
      else s.failedCount }

/-- Modelled from the spec: maximum of two optional timestamps, an absent
value losing to any present one. -/
def optMax : Option Nat → Option Nat → Option Nat
| none, b => b
| some a, none => some a
| some a, some b => some (max a b)

/-- Modelled from the spec: the heartbeat of the processor loop
(cuti.core.queue is absent from the tree): reload the persisted state,
merging each global counter and the last-processed timestamp by the
per-field maximum of the in-memory and on-disk values. -/
def heartbeatMerge (mem disk : QueueState) : QueueState :=
  { disk with
    totalProcessed := max mem.totalProcessed disk.totalProcessed,
    failedCount := max mem.failedCount disk.failedCount,
    rateLimitedCount := max mem.rateLimitedCount disk.rateLimitedCount,
    lastProcessed := optMax mem.lastProcessed disk.lastProcessed }

/-- Modelled from the spec: one iteration of the processor loop
(QueueProcessor._process_queue_iteration; cuti.core.queue is absent from
the tree): heartbeat merge against the persisted state, promote
RATE_LIMITED prompts whose reset has passed, pick the next QUEUED prompt,
mark it EXECUTING, invoke the executor with the submitted content
(the token continue for a previously rate-limited prompt, the original
content otherwise) and resolve the result.  Returns the new state and the
content submitted to the executor, if any. -/
def processIteration (exec : String → ExecutionResult) (now : Nat)
    (disk mem : QueueState) : QueueState × Option String :=
  match getNextPrompt (promoteRateLimited now (heartbeatMerge mem disk)) with
  | none => (promoteRateLimited now (heartbeatMerge mem disk), none)
  | some p =>
      (applyResult now p.id (exec (submittedContent p))
        (markExecuting p.id (promoteRateLimited now (heartbeatMerge mem disk))),
       some (submittedContent p))

/-- Modelled from the spec: shutdown demotion of a single prompt, any
EXECUTING prompt going back to QUEUED with every other field unchanged. -/
def demoteExecuting (p : QueuedPrompt) : QueuedPrompt :=
  if p.status = PromptStatus.executing then { p with status := PromptStatus.queued } else p

/-- Modelled from the spec: QueueProcessor._shutdown state change
(cuti.core.queue is absent from the tree): every EXECUTING prompt is
demoted to QUEUED with its retry count unchanged. -/
def shutdownState (s : QueueState) : QueueState :=
  { s with prompts := s.prompts.map demoteExecuting }

/-- Modelled from the spec: clean shutdown demotes EXECUTING prompts and
persists the resulting state once; the pair is the final in-memory state
and the on-disk state. -/
def processorShutdown (mem : QueueState) : QueueState × Option QueueState :=
  (shutdownState mem, some (shutdownState mem))

/-- Modelled from the spec: the empty queue state an absent store loads
to. -/
def emptyQueue : QueueState :=
  { prompts := [], totalProcessed := 0, failedCount := 0,
    rateLimitedCount := 0, lastProcessed := none }

/-- Modelled from the spec: PromptStorage.load_queue_state (cuti.core.storage
is absent from the tree): the persisted state, or the empty state when
absent. -/
def loadQueueState (disk : Option QueueState) : QueueState :=
  disk.getD emptyQueue

/-- Modelled from the spec: a freshly enqueued prompt, QUEUED with retry
count zero. -/
def mkPrompt (id content : String) (priority : Int) (createdAt : Nat)
    (maxRetries : Int) : QueuedPrompt :=
  { id := id, content := content, priority := priority, workingDir := ".",
    contextFiles := [], createdAt := createdAt, retryCount := 0,
    maxRetries := maxRetries, status := PromptStatus.queued,
    executionLog := [], resetTime := none, rateLimitedAt := none,
    lastError := none, estimatedTokens := none }

/-- Modelled from the spec: whether a prompt is in a non-terminal status
(COMPLETED and CANCELLED are terminal, FAILED is terminal once retries
are exhausted). -/
def nonTerminal (p : QueuedPrompt) : Bool :=
  match p.status with
  | PromptStatus.completed => false
  | PromptStatus.cancelled => false
  | PromptStatus.failed => p.retryCount < p.maxRetries
  | _ => true

/-- Modelled from the spec: external cancellation of a prompt, a
non-terminal prompt with the given id becoming CANCELLED. -/
def cancelPrompt (pid : String) (s : QueueState) : QueueState :=
  { s with prompts := s.prompts.map (fun p =>
      if p.id = pid && nonTerminal p then { p with status := PromptStatus.cancelled } else p) }

/-- Modelled from the spec: a scheduler pass re-queueing a FAILED prompt
that can still retry. -/
def requeueFailed (pid : String) (s : QueueState) : QueueState :=
  { s with prompts := s.prompts.map (fun p =>
      if p.id = pid && p.status = PromptStatus.failed && canRetry p
      then { p with status := PromptStatus.queued } else p) }

/-- Modelled from the spec: the state transitions the system can take,
from the control-plane operations and the processor loop: enqueue a new
prompt (with a non-negative retry cap), run one processor iteration over
its own persisted state, re-queue a retryable FAILED prompt, cancel a
prompt, or run the shutdown demotion. -/
inductive QueueStep : QueueState → QueueState → Prop where
| enqueue (s : QueueState) (id content : String) (priority : Int)
    (createdAt : Nat) (maxRetries : Int) (hmax : 0 ≤ maxRetries) :
    QueueStep s { s with prompts := s.prompts ++ [mkPrompt id content priority createdAt maxRetries] }
| iterate (s : QueueState) (exec : String → ExecutionResult) (now : Nat) :
    QueueStep s (processIteration exec now s s).1
| requeue (s : QueueState) (pid : String) : QueueStep s (requeueFailed pid s)
| cancel (s : QueueState) (pid : String) : QueueStep s (cancelPrompt pid s)
| shutdown (s : QueueState) : QueueStep s (shutdownState s)

/-- Modelled from the spec: the queue states reachable from the empty
initial state through the transitions of the system. -/
def ReachableQueue (s : QueueState) : Prop :=
  Relation.ReflTransGen QueueStep emptyQueue s

/-- Selection preorder: lower priority value first, ties broken by the
earlier creation timestamp. -/
def promptLE (r q : QueuedPrompt) : Prop :=
  r.priority < q.priority ∨ (r.priority = q.priority ∧ r.createdAt ≤ q.createdAt)

theorem promptLE_refl (p : QueuedPrompt) : promptLE p p := Or.inr ⟨rfl, le_refl _⟩

theorem promptLE_trans {a b c : QueuedPrompt} (h1 : promptLE a b) (h2 : promptLE b c) :
    promptLE a c := by
  rcases h1 with h1 | ⟨h1, h1c⟩ <;> rcases h2 with h2 | ⟨h2, h2c⟩
  · exact Or.inl (lt_trans h1 h2)
  · exact Or.inl (h2 ▸ h1)
  · exact Or.inl (h1 ▸ h2)
  · exact Or.inr ⟨h1.trans h2, le_trans h1c h2c⟩

theorem betterPrompt_false_iff (q r : QueuedPrompt) :
    betterPrompt q r = false ↔ promptLE r q := by
  unfold betterPrompt promptLE
  simp only [Bool.or_eq_false_iff, Bool.and_eq_false_iff, decide_eq_false_iff_not, not_lt]
  omega

theorem betterPrompt_true_le {q r : QueuedPrompt} (h : betterPrompt q r = true) :
    promptLE q r := by
  unfold betterPrompt at h
  simp only [Bool.or_eq_true, decide_eq_true_eq, Bool.and_eq_true] at h
  rcases h with h | ⟨h1, h2⟩
  · exact Or.inl h
  · exact Or.inr ⟨h1, le_of_lt h2⟩

theorem selectMin_mem (best : QueuedPrompt) (l : List QueuedPrompt) :
    selectMin best l = best ∨ selectMin best l ∈ l := by
  induction l generalizing best with
  | nil => exact Or.inl rfl
  | cons q rest ih =>
    have hstep : selectMin best (q :: rest) =
        selectMin (if betterPrompt q best then q else best) rest := rfl
    rw [hstep]
    by_cases hb : betterPrompt q best = true
    · rw [if_pos hb]
      rcases ih q with h | h
      · exact Or.inr (by rw [h]; exact List.mem_cons_self q rest)
      · exact Or.inr (List.mem_cons_of_mem q h)
    · rw [if_neg hb]
      rcases ih best with h | h
      · exact Or.inl h
      · exact Or.inr (List.mem_cons_of_mem q h)

theorem selectMin_le (best : QueuedPrompt) (l : List QueuedPrompt) :
    promptLE (selectMin best l) best ∧ ∀ q ∈ l, promptLE (selectMin best l) q := by
  induction l generalizing best with
  | nil => exact ⟨promptLE_refl best, by simp⟩
  | cons q rest ih =>
    have hstep : selectMin best (q :: rest) =
        selectMin (if betterPrompt q best then q else best) rest := rfl
    rw [hstep]
    by_cases hb : betterPrompt q best = true
    · rw [if_pos hb]
      obtain ⟨ih1, ih2⟩ := ih q
      refine ⟨promptLE_trans ih1 (betterPrompt_true_le hb), ?_⟩
      intro x hx
      rcases List.mem_cons.1 hx with rfl | hx
      · exact ih1
      · exact ih2 x hx
    · rw [if_neg hb]
      obtain ⟨ih1, ih2⟩ := ih best
      have hbf : betterPrompt q best = false := by
        revert hb; cases betterPrompt q best <;> simp
      refine ⟨ih1, ?_⟩
      intro x hx
      rcases List.mem_cons.1 hx with rfl | hx
      · exact promptLE_trans ih1 ((betterPrompt_false_iff x best).1 hbf)
      · exact ih2 x hx

theorem getNextPrompt_none_iff (s : QueueState) :
    getNextPrompt s = none ↔ ∀ p ∈ s.prompts, p.status ≠ PromptStatus.queued := by
  unfold getNextPrompt queuedOf
  constructor
  · intro h p hp hq
    cases hl : s.prompts.filter (fun p => p.status = PromptStatus.queued) with
    | nil =>
      have : p ∈ s.prompts.filter (fun p => p.status = PromptStatus.queued) := by
        simp [List.mem_filter, hp, hq]
      rw [hl] at this
      exact absurd this (List.not_mem_nil p)
    | cons h0 t => rw [hl] at h; simp at h
  · intro h
    cases hl : s.prompts.filter (fun p => p.status = PromptStatus.queued) with
    | nil => rfl
    | cons h0 t =>
      exfalso
      have : h0 ∈ s.prompts.filter (fun p => p.status = PromptStatus.queued) := by
        rw [hl]; exact List.mem_cons_self h0 t
      rw [List.mem_filter] at this
      exact h h0 this.1 (by simpa using this.2)

theorem getNextPrompt_some {s : QueueState} {p : QueuedPrompt}
    (h : getNextPrompt s = some p) :
    p ∈ s.prompts ∧ p.status = PromptStatus.queued ∧
      ∀ q ∈ s.prompts, q.status = PromptStatus.queued → promptLE p q := by
  unfold getNextPrompt at h
  cases hl : queuedOf s with
  | nil => rw [hl] at h; simp at h
  | cons h0 t =>
    rw [hl] at h
    simp only [Option.some_inj] at h
    have hmem : p ∈ queuedOf s := by
      rw [hl]
      rcases selectMin_mem h0 t with he | he
      · rw [← h, he]; exact List.mem_cons_self h0 t
      · rw [← h]; exact List.mem_cons_of_mem h0 he
    rw [queuedOf, List.mem_filter] at hmem
    refine ⟨hmem.1, by simpa using hmem.2, ?_⟩
    intro q hq hqs
    have hqmem : q ∈ queuedOf s := by
      rw [queuedOf, List.mem_filter]
      exact ⟨hq, by simp [hqs]⟩
    rw [hl] at hqmem
    obtain ⟨hle1, hle2⟩ := selectMin_le h0 t
    rcases List.mem_cons.1 hqmem with rfl | hqmem
    · exact h ▸ hle1
    · exact h ▸ hle2 q hqmem

theorem promptLE_iff (p q : QueuedPrompt) :
    promptLE p q ↔ p.priority ≤ q.priority ∧ (q.priority = p.priority → p.createdAt ≤ q.createdAt) := by
  unfold promptLE
  constructor
  · rintro (h | ⟨h1, h2⟩)
    · exact ⟨le_of_lt h, fun he => absurd (he ▸ h) (lt_irrefl _)⟩
    · exact ⟨le_of_eq h1, fun _ => h2⟩
  · rintro ⟨h1, h2⟩
    rcases eq_or_lt_of_le h1 with he | hl
    · exact Or.inr ⟨he, h2 he.symm⟩
    · exact Or.inl hl

theorem heartbeatMerge_self (s : QueueState) : heartbeatMerge s s = s := by
  unfold heartbeatMerge
  cases s with
  | mk prompts tp fc rl lp =>
    simp only [max_self]
    cases lp <;> simp [optMax, max_self]

theorem resolvePrompt_content (now : Nat) (r : ExecutionResult) (p : QueuedPrompt) :
    (resolvePrompt now r p).content = p.content := by
  unfold resolvePrompt
  split <;> [rfl; split <;> rfl]

theorem resolvePrompt_id (now : Nat) (r : ExecutionResult) (p : QueuedPrompt) :
    (resolvePrompt now r p).id = p.id := by
  unfold resolvePrompt
  split <;> [rfl; split <;> rfl]

theorem resolvePrompt_failed {r : ExecutionResult} (now : Nat) (p : QueuedPrompt)
    (h1 : r.success = false) (h2 : isRateLimitedResult r = false) :
    resolvePrompt now r p =
      { p with status := PromptStatus.failed, retryCount := p.retryCount + 1,
               lastError := r.error, rateLimitedAt := none } := by
  unfold resolvePrompt
  simp [h1, h2]

theorem processIteration_pick {exec : String → ExecutionResult} {now : Nat}
    {disk mem : QueueState} {p : QueuedPrompt}
    (h : getNextPrompt (promoteRateLimited now (heartbeatMerge mem disk)) = some p) :
    processIteration exec now disk mem =
      (applyResult now p.id (exec (submittedContent p))
        (markExecuting p.id (promoteRateLimited now (heartbeatMerge mem disk))),
       some (submittedContent p)) := by
  unfold processIteration
  rw [h]

theorem processIteration_idle {exec : String → ExecutionResult} {now : Nat}
    {disk mem : QueueState}
    (h : getNextPrompt (promoteRateLimited now (heartbeatMerge mem disk)) = none) :
    processIteration exec now disk mem =
      (promoteRateLimited now (heartbeatMerge mem disk), none) := by
  unfold processIteration
  rw [h]

theorem promoteOne_retryCount (now : Nat) (p : QueuedPrompt) :
    (promoteOne now p).retryCount = p.retryCount := by
  unfold promoteOne
  split
  · split <;> rfl
  · rfl

theorem resolvePrompt_retryCount_ge (now : Nat) (r : ExecutionResult) (p : QueuedPrompt) :
    p.retryCount ≤ (resolvePrompt now r p).retryCount := by
  unfold resolvePrompt
  split
  · exact le_refl _
  · split
    · simp
    · simp

theorem resolvePrompt_retryCount_incr {r : ExecutionResult} (now : Nat) (p : QueuedPrompt)
    (h1 : r.success = false) :
    (resolvePrompt now r p).retryCount = p.retryCount + 1 := by
  unfold resolvePrompt
  rw [if_neg (by simp [h1])]
  split <;> rfl

theorem rc_nonneg_of_map {l : List QueuedPrompt} {f : QueuedPrompt → QueuedPrompt}
    (hf : ∀ q, q.retryCount ≤ (f q).retryCount)
    (hl : ∀ p ∈ l, 0 ≤ p.retryCount) : ∀ p ∈ l.map f, 0 ≤ p.retryCount := by
  intro p hp
  obtain ⟨q, hq, rfl⟩ := List.mem_map.1 hp
  exact le_trans (hl q hq) (hf q)

theorem queueStep_rc_nonneg {a b : QueueState} (hs : QueueStep a b)
    (ha : ∀ p ∈ a.prompts, 0 ≤ p.retryCount) : ∀ p ∈ b.prompts, 0 ≤ p.retryCount := by
  cases hs with
  | enqueue idv content priority createdAt maxRetries hmax =>
    intro p hp
    rcases List.mem_append.1 hp with h | h
    · exact ha p h
    · simp only [List.mem_singleton] at h
      subst h
      exact le_refl 0
  | iterate exec now =>
    cases h : getNextPrompt (promoteRateLimited now a) with
    | none =>
      have heq : (processIteration exec now a a).1 = promoteRateLimited now a := by
        rw [processIteration_idle (by rw [heartbeatMerge_self]; exact h)]
        rw [heartbeatMerge_self]
      rw [heq]
      exact rc_nonneg_of_map (fun q => le_of_eq (promoteOne_retryCount now q).symm) ha
    | some p =>
      have heq : (processIteration exec now a a).1 =
          applyResult now p.id (exec (submittedContent p))
            (markExecuting p.id (promoteRateLimited now a)) := by
        rw [processIteration_pick (by rw [heartbeatMerge_self]; exact h)]
        rw [heartbeatMerge_self]
      rw [heq]
      refine rc_nonneg_of_map (fun q => ?_)
        (rc_nonneg_of_map (fun q => ?_)
          (rc_nonneg_of_map (fun q => le_of_eq (promoteOne_retryCount now q).symm) ha))
      · by_cases hc : q.id = p.id
        · rw [if_pos hc]
          exact resolvePrompt_retryCount_ge now _ q
        · rw [if_neg hc]
      · by_cases hc : q.id = p.id
        · rw [if_pos hc]
        · rw [if_neg hc]
  | requeue pid =>
    refine rc_nonneg_of_map (fun q => le_of_eq ?_) ha
    by_cases hc : (q.id = pid && q.status = PromptStatus.failed && canRetry q) = true
    · rw [if_pos hc]
    · rw [if_neg hc]
  | cancel pid =>
    refine rc_nonneg_of_map (fun q => le_of_eq ?_) ha
    by_cases hc : (q.id = pid && nonTerminal q) = true
    · rw [if_pos hc]
    · rw [if_neg hc]
  | shutdown =>
    refine rc_nonneg_of_map (fun q => le_of_eq ?_) ha
    unfold demoteExecuting
    by_cases hc : q.status = PromptStatus.executing
    · rw [if_pos hc]
    · rw [if_neg hc]

theorem applyResult_mem {now : Nat} {r : ExecutionResult} {pid : String}
    {s : QueueState} {p : QueuedPrompt} (hp : p ∈ s.prompts) (hid : p.id = pid) :
    resolvePrompt now r p ∈ (applyResult now pid r s).prompts := by
  refine List.mem_map.2 ⟨p, hp, ?_⟩
  show (if p.id = pid then resolvePrompt now r p else p) = resolvePrompt now r p
  rw [if_pos hid]

/-- Concrete rate-limited execution result used in the reachability trace
below: failure classified as rate limited with reset timestamp 10. -/
def rlResult : ExecutionResult :=
  { success := false, output := "", error := some "limit", executionTime := 1,
    rateLimitInfo := some { isRateLimited := true, resetTime := some 10,
                            limitMessage := some "rate limit" },
    exitCode := some 1 }

/-- Concrete plain-failure execution result used in the reachability trace
below: exit code 2 with no rate-limit classification. -/
def failResult : ExecutionResult :=
  { success := false, output := "", error := some "boom", executionTime := 1,
    rateLimitInfo := none, exitCode := some 2 }

/-- Trace state after enqueueing one prompt with max_retries 2. -/
def traceS1 : QueueState :=
  { emptyQueue with prompts := emptyQueue.prompts ++ [mkPrompt "p" "c" 0 0 2] }

/-- Trace state after an iteration in which the executor rate limits. -/
def traceS2 : QueueState := (processIteration (fun _ => rlResult) 1 traceS1 traceS1).1

/-- Trace state after a second rate-limited iteration past the reset. -/
def traceS3 : QueueState := (processIteration (fun _ => rlResult) 20 traceS2 traceS2).1

/-- Trace state after a failing iteration: the prompt is FAILED with
retry count 3 while max_retries is 2. -/
def traceS4 : QueueState := (processIteration (fun _ => failResult) 40 traceS3 traceS3).1

theorem traceS4_reachable : ReachableQueue traceS4 := by
  have h1 : QueueStep emptyQueue traceS1 :=
    QueueStep.enqueue emptyQueue "p" "c" 0 0 2 (by decide)
  have h2 : QueueStep traceS1 traceS2 :=
    QueueStep.iterate traceS1 (fun _ => rlResult) 1
  have h3 : QueueStep traceS2 traceS3 :=
    QueueStep.iterate traceS2 (fun _ => rlResult) 20
  have h4 : QueueStep traceS3 traceS4 :=
    QueueStep.iterate traceS3 (fun _ => failResult) 40
  exact Relation.ReflTransGen.tail
    (Relation.ReflTransGen.tail
      (Relation.ReflTransGen.tail (Relation.ReflTransGen.single h1) h2) h3) h4

/-- C1 counterexample: the claimed invariant retry_count at most
max_retries is false on a reachable state.  A prompt enqueued with
max_retries 2 is rate limited twice (each rate-limit transition
increments retry_count and promotion back to QUEUED is unguarded), and
a final failure increments retry_count to 3, exceeding max_retries: the
very state the shipped test test_failed_prompt_max_retries_exceeded
asserts (FAILED, retry_count 3, max_retries 2). -/
theorem c1_retry_cap_counterexample :
    ¬ (∀ s : QueueState, ReachableQueue s →
        ∀ p ∈ s.prompts, 0 ≤ p.retryCount ∧ p.retryCount ≤ p.maxRetries) := by
  intro hclaim
  have hbad : ∃ p ∈ traceS4.prompts, ¬ (0 ≤ p.retryCount ∧ p.retryCount ≤ p.maxRetries) := by
    decide
  obtain ⟨p, hmem, hp⟩ := hbad
  exact hp (hclaim traceS4 traceS4_reachable p hmem)

/-- C1 amended: in every reachable queue state every prompt has a
non-negative retry count, but the upper bound by max_retries does not
hold: the failure and rate-limit transitions increment retry_count by
exactly one unconditionally, even when retry_count already equals
max_retries, so a final failure leaves retry_count at max_retries + 1
(and repeated rate limiting can push it further). -/
theorem c1_retry_count_amended :
    (∀ s : QueueState, ReachableQueue s → ∀ p ∈ s.prompts, 0 ≤ p.retryCount) ∧
    (∀ (now : Nat) (r : ExecutionResult) (pid : String) (s : QueueState) (p : QueuedPrompt),
      p ∈ s.prompts → p.id = pid → r.success = false →
      resolvePrompt now r p ∈ (applyResult now pid r s).prompts ∧
      (resolvePrompt now r p).retryCount = p.retryCount + 1) := by
  constructor
  · intro s hs
    induction hs with
    | refl => intro p hp; exact absurd hp (List.not_mem_nil p)
    | tail _ hstep ih => exact queueStep_rc_nonneg hstep ih
  · intro now r pid s p hp hid hfail
    exact ⟨applyResult_mem hp hid, resolvePrompt_retryCount_incr now p hfail⟩

theorem c1_retry_count_amended_witness :
    ((0 : Int) ≤ (mkPrompt "p" "c" 0 0 2).retryCount) ∧
    (resolvePrompt 40 failResult (mkPrompt "p" "c" 0 0 2)
        ∈ (applyResult 40 "p" failResult traceS1).prompts ∧
      (resolvePrompt 40 failResult (mkPrompt "p" "c" 0 0 2)).retryCount =
        (mkPrompt "p" "c" 0 0 2).retryCount + 1) :=
  ⟨c1_retry_count_amended.1 traceS1
      (Relation.ReflTransGen.single (QueueStep.enqueue emptyQueue "p" "c" 0 0 2 (by decide)))
      (mkPrompt "p" "c" 0 0 2) (by decide),
   c1_retry_count_amended.2 40 failResult "p" traceS1 (mkPrompt "p" "c" 0 0 2)
      (by decide) (by decide) (by decide)⟩

/-- C2: next() considers only QUEUED prompts and returns the one with
the lowest priority value, breaking ties by the earliest creation
timestamp; it returns nothing exactly when no prompt is QUEUED. -/
theorem c2_next_selection :
    ∀ s : QueueState,
      (getNextPrompt s = none ↔ ∀ p ∈ s.prompts, p.status ≠ PromptStatus.queued) ∧
      (∀ p, getNextPrompt s = some p →
        p ∈ s.prompts ∧ p.status = PromptStatus.queued ∧
        ∀ q ∈ s.prompts, q.status = PromptStatus.queued →
          p.priority ≤ q.priority ∧ (q.priority = p.priority → p.createdAt ≤ q.createdAt)) := by
  intro s
  refine ⟨getNextPrompt_none_iff s, ?_⟩
  intro p hp
  obtain ⟨hmem, hq, hmin⟩ := getNextPrompt_some hp
  exact ⟨hmem, hq, fun q hqmem hqs => (promptLE_iff p q).1 (hmin q hqmem hqs)⟩

/-- Concrete three-prompt state of the priority-ordering scenario:
A has priority 5 created at 0, B and C share priority 1 and are created
at 1 and 2 respectively. -/
def stateABC : QueueState :=
  { prompts := [mkPrompt "A" "a" 5 0 3, mkPrompt "B" "b" 1 1 3, mkPrompt "C" "cc" 1 2 3],
    totalProcessed := 0, failedCount := 0, rateLimitedCount := 0, lastProcessed := none }

theorem c2_next_selection_witness :
    mkPrompt "B" "b" 1 1 3 ∈ stateABC.prompts ∧
    (mkPrompt "B" "b" 1 1 3).status = PromptStatus.queued ∧
    ∀ q ∈ stateABC.prompts, q.status = PromptStatus.queued →
      (mkPrompt "B" "b" 1 1 3).priority ≤ q.priority ∧
      (q.priority = (mkPrompt "B" "b" 1 1 3).priority →
        (mkPrompt "B" "b" 1 1 3).createdAt ≤ q.createdAt) :=
  (c2_next_selection stateABC).2 (mkPrompt "B" "b" 1 1 3) (by decide)

theorem promoteOne_promotes {now : Nat} {p : QueuedPrompt} {t : Nat}
    (hrl : p.status = PromptStatus.rateLimited) (hrt : p.resetTime = some t)
    (htn : t ≤ now) :
    promoteOne now p = { p with status := PromptStatus.queued } := by
  unfold promoteOne
  rw [hrl, hrt]
  simp [htn]

/-- C3: a RATE_LIMITED prompt whose reset time has passed is promoted to
QUEUED; when it is picked again the processor submits the literal token
continue to the executor instead of the content, the prompt record keeps
its original content, and if that resumed attempt fails (without a new
rate limit) the rate-limited marker is cleared so the next submission is
the original content again. -/
theorem c3_rate_limited_resume :
    ∀ (s : QueueState) (now : Nat) (exec : String → ExecutionResult) (p : QueuedPrompt),
      (p ∈ s.prompts → p.status = PromptStatus.rateLimited →
        ∀ t, p.resetTime = some t → t ≤ now →
          { p with status := PromptStatus.queued } ∈ (promoteRateLimited now s).prompts) ∧
      (getNextPrompt (promoteRateLimited now s) = some p →
        p.rateLimitedAt.isSome = true →
        (processIteration exec now s s).2 = some "continue" ∧
        (∃ q ∈ (processIteration exec now s s).1.prompts,
          q.id = p.id ∧ q.content = p.content ∧
          ((exec "continue").success = false →
            isRateLimitedResult (exec "continue") = false →
            q.rateLimitedAt = none ∧ submittedContent q = q.content))) := by
  intro s now exec p
  constructor
  · intro hp hrl t hrt htn
    exact List.mem_map.2 ⟨p, hp, promoteOne_promotes hrl hrt htn⟩
  · intro hpick hrla
    have hsub : submittedContent p = "continue" := by
      unfold submittedContent
      rw [if_pos hrla]
    have hpick' : getNextPrompt (promoteRateLimited now (heartbeatMerge s s)) = some p := by
      rw [heartbeatMerge_self]
      exact hpick
    rw [processIteration_pick hpick', heartbeatMerge_self, hsub]
    refine ⟨rfl, ?_⟩
    have hpmem : p ∈ (promoteRateLimited now s).prompts := (getNextPrompt_some hpick).1
    have hmark : { p with status := PromptStatus.executing }
        ∈ (markExecuting p.id (promoteRateLimited now s)).prompts := by
      refine List.mem_map.2 ⟨p, hpmem, ?_⟩
      show (if p.id = p.id then { p with status := PromptStatus.executing } else p) = _
      rw [if_pos rfl]
    refine ⟨resolvePrompt now (exec "continue") { p with status := PromptStatus.executing },
      applyResult_mem hmark rfl, resolvePrompt_id now _ _, resolvePrompt_content now _ _, ?_⟩
    intro hfail hnrl
    rw [resolvePrompt_failed now _ hfail hnrl]
    refine ⟨rfl, ?_⟩
    unfold submittedContent
    rw [if_neg (by simp)]

/-- Concrete successful execution result. -/
def okResult : ExecutionResult :=
  { success := true, output := "Continued output", error := none, executionTime := 2,
    rateLimitInfo := none, exitCode := some 0 }

/-- Concrete rate-limited prompt whose reset time has passed, mirroring
the resumed-retry test: original content, retry count 1, reset already in
the past. -/
def pOriginal : QueuedPrompt :=
  { mkPrompt "t5" "Original prompt content" 0 0 3 with
      status := PromptStatus.rateLimited, retryCount := 1,
      rateLimitedAt := some 0, resetTime := some 0 }

/-- Concrete one-prompt state holding pOriginal. -/
def stateRL : QueueState :=
  { prompts := [pOriginal], totalProcessed := 0, failedCount := 0,
    rateLimitedCount := 0, lastProcessed := none }

theorem c3_rate_limited_resume_witness :
    (processIteration (fun _ => okResult) 5 stateRL stateRL).2 = some "continue" ∧
    (∃ q ∈ (processIteration (fun _ => okResult) 5 stateRL stateRL).1.prompts,
      q.id = ({ pOriginal with status := PromptStatus.queued } : QueuedPrompt).id ∧
      q.content = ({ pOriginal with status := PromptStatus.queued } : QueuedPrompt).content ∧
      (((fun _ => okResult) "continue" : ExecutionResult).success = false →
        isRateLimitedResult ((fun _ => okResult) "continue") = false →
        q.rateLimitedAt = none ∧ submittedContent q = q.content)) :=
  (c3_rate_limited_resume stateRL 5 (fun _ => okResult)
      { pOriginal with status := PromptStatus.queued }).2 (by decide) (by decide)

/-- C4: clean shutdown persists a state in which every prompt that was
EXECUTING has been demoted to QUEUED with its retry count unchanged and
every other prompt is untouched, so that after a restart from the
persisted state no prompt is EXECUTING. -/
theorem c4_shutdown_demotion :
    ∀ mem : QueueState,
      (processorShutdown mem).2 = some (shutdownState mem) ∧
      (∀ p ∈ (loadQueueState (processorShutdown mem).2).prompts,
        p.status ≠ PromptStatus.executing) ∧
      (∀ p ∈ mem.prompts, p.status = PromptStatus.executing →
        { p with status := PromptStatus.queued }
            ∈ (loadQueueState (processorShutdown mem).2).prompts ∧
          ({ p with status := PromptStatus.queued } : QueuedPrompt).retryCount = p.retryCount) ∧
      (∀ p ∈ mem.prompts, p.status ≠ PromptStatus.executing →
        p ∈ (loadQueueState (processorShutdown mem).2).prompts) := by
  intro mem
  refine ⟨rfl, ?_, ?_, ?_⟩
  · intro p hp
    obtain ⟨q, _, rfl⟩ := List.mem_map.1 hp
    unfold demoteExecuting
    by_cases hc : q.status = PromptStatus.executing
    · rw [if_pos hc]
      intro hcontra
      exact PromptStatus.noConfusion hcontra
    · rw [if_neg hc]
      exact hc
  · intro p hp hex
    refine ⟨List.mem_map.2 ⟨p, hp, ?_⟩, rfl⟩
    unfold demoteExecuting
    rw [if_pos hex]
  · intro p hp hne
    refine List.mem_map.2 ⟨p, hp, ?_⟩
    unfold demoteExecuting
    rw [if_neg hne]

/-- Concrete state with one EXECUTING prompt, used to instantiate the
shutdown theorem. -/
def stateExec : QueueState :=
  { prompts := [{ mkPrompt "t6" "Executing prompt" 0 0 3 with status := PromptStatus.executing }],
    totalProcessed := 0, failedCount := 0, rateLimitedCount := 0, lastProcessed := none }

theorem c4_shutdown_demotion_witness :
    ({ mkPrompt "t6" "Executing prompt" 0 0 3 with status := PromptStatus.queued }
        ∈ (loadQueueState (processorShutdown stateExec).2).prompts ∧
      ({ mkPrompt "t6" "Executing prompt" 0 0 3 with
          status := PromptStatus.queued } : QueuedPrompt).retryCount =
        ({ mkPrompt "t6" "Executing prompt" 0 0 3 with
            status := PromptStatus.executing } : QueuedPrompt).retryCount) :=
  (c4_shutdown_demotion stateExec).2.2.1
    { mkPrompt "t6" "Executing prompt" 0 0 3 with status := PromptStatus.executing }
    (by decide) (by decide)

theorem applyResult_totalProcessed_ge (now : Nat) (pid : String) (r : ExecutionResult)
    (s : QueueState) : s.totalProcessed ≤ (applyResult now pid r s).totalProcessed := by
  show s.totalProcessed ≤ if r.success then s.totalProcessed + 1 else s.totalProcessed
  split <;> omega

theorem applyResult_failedCount_ge (now : Nat) (pid : String) (r : ExecutionResult)
    (s : QueueState) : s.failedCount ≤ (applyResult now pid r s).failedCount := by
  show s.failedCount ≤
    if !r.success && !isRateLimitedResult r then s.failedCount + 1 else s.failedCount
  split <;> omega

theorem applyResult_rateLimitedCount_ge (now : Nat) (pid : String) (r : ExecutionResult)
    (s : QueueState) : s.rateLimitedCount ≤ (applyResult now pid r s).rateLimitedCount := by
  show s.rateLimitedCount ≤
    if !r.success && isRateLimitedResult r then s.rateLimitedCount + 1 else s.rateLimitedCount
  split <;> omega

/-- C5: the heartbeat reload merges each global counter and the
last-processed timestamp by the per-field maximum of the in-memory and
on-disk values, and a full processor iteration never regresses any
counter below either side of that maximum. -/
theorem c5_counter_merge_monotone :
    ∀ (mem disk : QueueState) (exec : String → ExecutionResult) (now : Nat),
      (heartbeatMerge mem disk).totalProcessed = max mem.totalProcessed disk.totalProcessed ∧
      (heartbeatMerge mem disk).failedCount = max mem.failedCount disk.failedCount ∧
      (heartbeatMerge mem disk).rateLimitedCount =
        max mem.rateLimitedCount disk.rateLimitedCount ∧
      (heartbeatMerge mem disk).lastProcessed = optMax mem.lastProcessed disk.lastProcessed ∧
      max mem.totalProcessed disk.totalProcessed ≤
        (processIteration exec now disk mem).1.totalProcessed ∧
      max mem.failedCount disk.failedCount ≤
        (processIteration exec now disk mem).1.failedCount ∧
      max mem.rateLimitedCount disk.rateLimitedCount ≤
        (processIteration exec now disk mem).1.rateLimitedCount := by
  intro mem disk exec now
  refine ⟨rfl, rfl, rfl, rfl, ?_, ?_, ?_⟩
  · cases h : getNextPrompt (promoteRateLimited now (heartbeatMerge mem disk)) with
    | none =>
      rw [processIteration_idle h]
      exact le_refl _
    | some p =>
      rw [processIteration_pick h]
      exact applyResult_totalProcessed_ge now p.id (exec (submittedContent p))
        (markExecuting p.id (promoteRateLimited now (heartbeatMerge mem disk)))
  · cases h : getNextPrompt (promoteRateLimited now (heartbeatMerge mem disk)) with
    | none =>
      rw [processIteration_idle h]
      exact le_refl _
    | some p =>
      rw [processIteration_pick h]
      exact applyResult_failedCount_ge now p.id (exec (submittedContent p))
        (markExecuting p.id (promoteRateLimited now (heartbeatMerge mem disk)))
  · cases h : getNextPrompt (promoteRateLimited now (heartbeatMerge mem disk)) with
    | none =>
      rw [processIteration_idle h]
      exact le_refl _
    | some p =>
      rw [processIteration_pick h]
      exact applyResult_rateLimitedCount_ge now p.id (exec (submittedContent p))
        (markExecuting p.id (promoteRateLimited now (heartbeatMerge mem disk)))

/-- C6: a QUEUED prompt with no prior retries whose execution fails with
no rate-limit signal ends the iteration FAILED with retry count 1, the
failed counter is incremented by one, the processed counter is not, and
the prompt is not re-queued within the same iteration (its status at the
end of the iteration is FAILED, not QUEUED). -/
theorem c6_first_failure :
    ∀ (s : QueueState) (now : Nat) (exec : String → ExecutionResult) (p : QueuedPrompt),
      getNextPrompt (promoteRateLimited now s) = some p →
      (exec (submittedContent p)).success = false →
      isRateLimitedResult (exec (submittedContent p)) = false →
      p.retryCount = 0 →
      resolvePrompt now (exec (submittedContent p)) { p with status := PromptStatus.executing }
          ∈ (processIteration exec now s s).1.prompts ∧
        (resolvePrompt now (exec (submittedContent p))
          { p with status := PromptStatus.executing }).status = PromptStatus.failed ∧
        (resolvePrompt now (exec (submittedContent p))
          { p with status := PromptStatus.executing }).retryCount = 1 ∧
        (processIteration exec now s s).1.failedCount = s.failedCount + 1 ∧
        (processIteration exec now s s).1.totalProcessed = s.totalProcessed := by
  intro s now exec p hpick hfail hnrl hrc
  have hpick' : getNextPrompt (promoteRateLimited now (heartbeatMerge s s)) = some p := by
    rw [heartbeatMerge_self]
    exact hpick
  rw [processIteration_pick hpick', heartbeatMerge_self]
  have hpmem : p ∈ (promoteRateLimited now s).prompts := (getNextPrompt_some hpick).1
  have hmark : { p with status := PromptStatus.executing }
      ∈ (markExecuting p.id (promoteRateLimited now s)).prompts := by
    refine List.mem_map.2 ⟨p, hpmem, ?_⟩
    show (if p.id = p.id then { p with status := PromptStatus.executing } else p) = _
    rw [if_pos rfl]
  refine ⟨applyResult_mem hmark rfl, ?_, ?_, ?_, ?_⟩
  · rw [resolvePrompt_failed now _ hfail hnrl]
  · rw [resolvePrompt_retryCount_incr now _ hfail]
    show p.retryCount + 1 = 1
    rw [hrc]
    rfl
  · show (if _ then _ else _) = s.failedCount + 1
    rw [if_pos (by rw [hfail, hnrl]; rfl)]
    rfl
  · show (if _ then _ else _) = s.totalProcessed
    rw [if_neg (by rw [hfail]; exact Bool.false_ne_true)]
    rfl

/-- Concrete one-prompt state of the first-failure scenario. -/
def stateFail : QueueState :=
  { prompts := [mkPrompt "t2" "Failing prompt" 0 0 3], totalProcessed := 0,
    failedCount := 0, rateLimitedCount := 0, lastProcessed := none }

theorem c6_first_failure_witness :
    resolvePrompt 3 ((fun _ => failResult) (submittedContent (mkPrompt "t2" "Failing prompt" 0 0 3)))
        { mkPrompt "t2" "Failing prompt" 0 0 3 with status := PromptStatus.executing }
        ∈ (processIteration (fun _ => failResult) 3 stateFail stateFail).1.prompts ∧
      (resolvePrompt 3 ((fun _ => failResult) (submittedContent (mkPrompt "t2" "Failing prompt" 0 0 3)))
        { mkPrompt "t2" "Failing prompt" 0 0 3 with
            status := PromptStatus.executing }).status = PromptStatus.failed ∧
      (resolvePrompt 3 ((fun _ => failResult) (submittedContent (mkPrompt "t2" "Failing prompt" 0 0 3)))
        { mkPrompt "t2" "Failing prompt" 0 0 3 with
            status := PromptStatus.executing }).retryCount = 1 ∧
      (processIteration (fun _ => failResult) 3 stateFail stateFail).1.failedCount =
        stateFail.failedCount + 1 ∧
      (processIteration (fun _ => failResult) 3 stateFail stateFail).1.totalProcessed =
        stateFail.totalProcessed :=
  c6_first_failure stateFail 3 (fun _ => failResult) (mkPrompt "t2" "Failing prompt" 0 0 3)
    (by decide) (by decide) (by decide) (by decide)

/-- Association-list lookup by key, first entry wins, mirroring a
directory listing or a JSON object with unique keys. -/
def alookup {α : Type} (k : String) : List (String × α) → Option α
| [] => none
| (k2, v) :: rest => if k2 = k then some v else alookup k rest

/-- Association-list insert-or-replace, mirroring writing a file into a
directory or assigning a key of a JSON object. -/
def alistInsert {α : Type} (k : String) (v : α) : List (String × α) → List (String × α)
| [] => [(k, v)]
| (k2, v2) :: rest => if k2 = k then (k, v) :: rest else (k2, v2) :: alistInsert k v rest

/-- Translated from Python str.strip() as used by save_account: drop
leading and trailing whitespace characters. -/
def pyStrip (s : String) : String :=
  String.mk (((s.data.dropWhile Char.isWhitespace).reverse.dropWhile Char.isWhitespace).reverse)

/-- Translated from the character filter of save_account
(claude_account_manager.py line 139): keep alphanumerics, dash,
underscore and space. -/
def keepChar (c : Char) : Bool :=
  c.isAlphanum || c = '-' || c = '_' || c = ' '

/-- Translated from save_account (claude_account_manager.py line 139):
drop every character that is not alphanumeric, dash, underscore or
space, then strip surrounding whitespace. -/
def sanitizeName (name : String) : String :=
  pyStrip (String.mk (name.data.filter keepChar))

/-- Decimal digit to its character, for rendering the backup counter the
way Python str() does. -/
def digitChar : Nat → Char
| 0 => '0'
| 1 => '1'
| 2 => '2'
| 3 => '3'
| 4 => '4'
| 5 => '5'
| 6 => '6'
| 7 => '7'
| 8 => '8'
| _ => '9'

/-- Little-endian decimal digits of a natural number, with enough fuel
to terminate. -/
def natDigitsAux : Nat → Nat → List Nat
| 0, _ => []
| fuel + 1, n => if n < 10 then [n] else n % 10 :: natDigitsAux fuel (n / 10)

/-- Little-endian decimal digits of a natural number. -/
def natDigits (n : Nat) : List Nat := natDigitsAux (n + 1) n

/-- Translated from Python str(n) for a natural number: its decimal
rendering. -/
def pyStr (n : Nat) : String :=
  String.mk (((natDigits n).reverse).map digitChar)

/-- Translated from new_account (claude_account_manager.py lines 257-263):
the candidate backup profile names tried in order, backup_<timestamp>
first, then backup_<timestamp>_<counter> for counter 1, 2, and so on. -/
def backupCandidate (ts : String) : Nat → String
| 0 => "backup_" ++ ts
| Nat.succ k => "backup_" ++ ts ++ "_" ++ pyStr (k + 1)

/-- Translated from the uniqueness loop of new_account: try candidates
in order until one does not collide with an existing profile directory,
with enough fuel to exhaust every possible collision. -/
def findBackupFrom (names : List String) (ts : String) : Nat → Nat → String
| 0, k => backupCandidate ts k
| fuel + 1, k =>
    if backupCandidate ts k ∈ names then findBackupFrom names ts fuel (k + 1)
    else backupCandidate ts k

/-- Translated from new_account: the unique backup name chosen against
the existing profile directories. -/
def findBackupName (names : List String) (ts : String) : String :=
  findBackupFrom names ts (names.length + 1) 0

/-- Snapshot of a directory: its plain files (name and content) and its
subdirectories (name and flattened content).  Credential directories are
shallow enough for this view; a subdirectory is copied or deleted as a
whole, exactly as shutil.copytree and shutil.rmtree treat it. -/
structure DirSnapshot where
  files : List (String × String)
  dirs : List (String × List (String × String))
deriving DecidableEq, Repr

/-- Snapshot of an empty directory. -/
def emptySnapshot : DirSnapshot := { files := [], dirs := [] }

/-- Translated from the copy loop of save_account and use_account: every
file of the source directory is copied over the destination (copy2
overwrites), and every subdirectory of the source replaces the
destination one (rmtree then copytree). -/
def copySnapshot (dest src : DirSnapshot) : DirSnapshot :=
  { files := src.files.foldl (fun acc kv => alistInsert kv.1 kv.2 acc) dest.files,
    dirs := src.dirs.foldl (fun acc kv => alistInsert kv.1 kv.2 acc) dest.dirs }

/-- Per-account entry of the accounts.json index: created and last-used
timestamps and the displayed account type. -/
structure AccountMeta where
  created : String
  lastUsed : String
  accountType : String
deriving DecidableEq, Repr

/-- Parsed accounts.json index: the per-account entries and the active
account name.  The last_updated stamp rewritten on every save is not
tracked. -/
structure AccountsMetadata where
  accounts : List (String × AccountMeta)
  active : Option String
deriving DecidableEq, Repr

/-- The empty index _load_metadata falls back to. -/
def emptyMetadata : AccountsMetadata := { accounts := [], active := none }

/-- On-disk view of the index file for the load-metadata contract: the
content of accounts.json, if present, and the content of a renamed-aside
accounts.json.corrupt, if present. -/
structure MetaFs where
  metadataFile : Option String
  corruptFile : Option String
deriving DecidableEq, Repr

/-- Translated from _load_metadata (claude_account_manager.py lines
50-59): try to read and parse the index file; on any failure (absent
file or undecodable content) return the empty index.  The function only
reads: the filesystem comes back unchanged.  The json.loads decoding of
the library is abstracted as the parse parameter, a parser that returns
none exactly on the content it cannot decode. -/
def loadMetadata (parse : String → Option AccountsMetadata) (fs : MetaFs) :
    AccountsMetadata × MetaFs :=
  (match fs.metadataFile with
   | none => emptyMetadata
   | some content => (parse content).getD emptyMetadata,
   fs)

/-- State of the account store: the subdirectories of claude-accounts
(one snapshot per profile), the parsed accounts.json index, and the
active credential directory claude-linux. -/
structure AccountStore where
  accountsDirs : List (String × DirSnapshot)
  metadata : AccountsMetadata
  activeDir : DirSnapshot
deriving DecidableEq, Repr

/-- Translated from save_account (claude_account_manager.py lines
132-189): validate and sanitize the name, require the primary
credentials file in the active directory, copy every file and
subdirectory of the active directory into the profile directory
(creating it if new), record created/last-used/type in the index and
set the active pointer to the sanitized name.  The
subscription-type extraction out of the credentials JSON is abstracted
as the oauthSubType parameter; the now parameter stands for
datetime.now().isoformat(). -/
def saveAccount (oauthSubType : String → Option String) (now : String)
    (name : String) (st : AccountStore) : Except String AccountStore :=
  if pyStrip name = "" then Except.error "Account name cannot be empty"
  else
    if sanitizeName name = "" then Except.error "Account name must contain valid characters"
    else
      match alookup ".credentials.json" st.activeDir.files with
      | none => Except.error "No credentials found"
      | some creds =>
          Except.ok
            { accountsDirs :=
                alistInsert (sanitizeName name)
                  (copySnapshot ((alookup (sanitizeName name) st.accountsDirs).getD emptySnapshot)
                    st.activeDir)
                  st.accountsDirs,
              metadata :=
                { accounts :=
                    alistInsert (sanitizeName name)
                      { created :=
                          (match alookup (sanitizeName name) st.metadata.accounts with
                           | some m => m.created
                           | none => now),
                        lastUsed := now,
                        accountType := (oauthSubType creds).getD "Pro" }
                      st.metadata.accounts,
                  active := some (sanitizeName name) },
              activeDir := st.activeDir }

/-- Translated from new_account (claude_account_manager.py lines
270-275): the credential files removed by name. -/
def credentialFileNames : List String :=
  [".credentials.json", ".claude.json", "session.json", ".session"]

/-- Translated from new_account (lines 287-289): substring patterns of
credential files whose backup copies are also removed. -/
def credPatterns : List String :=
  [".credentials", ".claude.json", ".session", "session.json"]

/-- Translated from new_account (lines 289-291): suffix markers of
backup or corrupted copies. -/
def credSuffixes : List String :=
  [".backup", ".bak", ".old", ".corrupted"]

/-- Translated from new_account (lines 295-299): the session directories
cleared and recreated empty. -/
def sessionDirNames : List String :=
  ["sessions", "shell-snapshots", "statsig"]

/-- Whether the first list of characters occurs at the start of the
second. -/
def leadMatch : List Char → List Char → Bool
| [], _ => true
| _ :: _, [] => false
| a :: as, b :: bs => a = b && leadMatch as bs

/-- Whether the first list of characters occurs anywhere inside the
second, mirroring the Python substring test. -/
def hasSubList (pat : List Char) : List Char → Bool
| [] => leadMatch pat []
| c :: rest => leadMatch pat (c :: rest) || hasSubList pat rest

/-- Translated from the Python expression pattern in name: substring
containment of strings. -/
def strContains (hay pat : String) : Bool := hasSubList pat.data hay.data

/-- Translated from new_account (lines 284-292): a file is a stray
credential backup when its name contains one of the credential patterns
and one of the backup suffixes. -/
def isCredBackupFile (n : String) : Bool :=
  credPatterns.any (fun p => strContains n p) && credSuffixes.any (fun p => strContains n p)

/-- Translated from new_account (lines 301-306): one session directory
is cleared when it exists: removed and recreated empty; an absent one is
left absent. -/
def clearStep (acc : List (String × List (String × String))) (d : String) :
    List (String × List (String × String)) :=
  if (alookup d acc).isSome then alistInsert d [] acc else acc

/-- Translated from new_account (lines 301-306): each session directory
that exists is removed and recreated empty; absent ones are left
absent. -/
def clearSessionDirs (dirs : List (String × List (String × String))) :
    List (String × List (String × String)) :=
  sessionDirNames.foldl clearStep dirs

/-- Translated from new_account (lines 268-313): the clearing phase that
follows the optional backup: remove the known credential files, remove
stray credential backups, clear and recreate the session directories,
and clear the active pointer of the index. -/
def newAccountClear (backupNeeded : Bool) (st1 : AccountStore) : Bool × AccountStore :=
  (backupNeeded,
    { st1 with
      activeDir :=
        { files :=
            (st1.activeDir.files.filter
                (fun kv => decide (kv.1 ∉ credentialFileNames))).filter
              (fun kv => !isCredBackupFile kv.1),
          dirs := clearSessionDirs st1.activeDir.dirs },
      metadata := { st1.metadata with active := none } })

/-- Translated from new_account (claude_account_manager.py lines
250-313): when the active directory holds a credentials file, first save
it as a backup profile under a fresh backup_<timestamp> name, then run
the clearing phase.  Returns whether a backup was taken, paired with the
new store. -/
def newAccount (oauthSubType : String → Option String) (now ts : String)
    (st : AccountStore) : Except String (Bool × AccountStore) :=
  match (if (alookup ".credentials.json" st.activeDir.files).isSome then
      saveAccount oauthSubType now (findBackupName (st.accountsDirs.map Prod.fst) ts) st
    else Except.ok st) with
  | Except.error e => Except.error e
  | Except.ok st1 =>
      Except.ok (newAccountClear (alookup ".credentials.json" st.activeDir.files).isSome st1)

/-- Sanitization exactly as the claim words it: non-alphanumeric
characters other than dash, underscore and space removed, with no
stripping of surrounding whitespace.  Stated from the claim, to be
compared with sanitizeName translated from the source. -/
def claimSanitize (name : String) : String :=
  String.mk (name.data.filter keepChar)

/-- Value of a little-endian digit list. -/
def digitsVal : List Nat → Nat
| [] => 0
| d :: ds => d + 10 * digitsVal ds

theorem stringEq_data {s t : String} : s = t ↔ s.data = t.data := by
  constructor
  · intro h; rw [h]
  · intro h; cases s; cases t; simp_all

theorem digitChar_lt10_inj : ∀ a < 10, ∀ b < 10, digitChar a = digitChar b → a = b := by
  decide

theorem natDigitsAux_lt10 : ∀ fuel n, ∀ d ∈ natDigitsAux fuel n, d < 10 := by
  intro fuel
  induction fuel with
  | zero => intro n d hd; simp [natDigitsAux] at hd
  | succ f ih =>
    intro n d hd
    unfold natDigitsAux at hd
    split at hd
    · rename_i hn
      simp only [List.mem_singleton] at hd
      omega
    · rcases List.mem_cons.1 hd with rfl | hd
      · exact Nat.mod_lt n (by omega)
      · exact ih (n / 10) d hd

theorem natDigitsAux_val : ∀ fuel n, n < 10 ^ fuel → digitsVal (natDigitsAux fuel n) = n := by
  intro fuel
  induction fuel with
  | zero => intro n h; simp at h; simp [natDigitsAux, digitsVal, h]
  | succ f ih =>
    intro n h
    unfold natDigitsAux
    split
    · simp [digitsVal]
    · rename_i hn
      have hdiv : n / 10 < 10 ^ f := by
        rw [Nat.div_lt_iff_lt_mul (by omega)]
        calc n < 10 ^ (f + 1) := h
        _ = 10 ^ f * 10 := by ring
      rw [show digitsVal (n % 10 :: natDigitsAux f (n / 10)) =
          n % 10 + 10 * digitsVal (natDigitsAux f (n / 10)) from rfl]
      rw [ih (n / 10) hdiv]
      exact Nat.mod_add_div n 10

theorem natDigits_val (n : Nat) : digitsVal (natDigits n) = n :=
  natDigitsAux_val (n + 1) n
    (lt_of_lt_of_le (Nat.lt_pow_self (by omega) n)
      (Nat.pow_le_pow_right (by omega) (Nat.le_succ n)))

theorem natDigits_ne_nil (n : Nat) : natDigits n ≠ [] := by
  unfold natDigits natDigitsAux
  split <;> simp

theorem map_digitChar_inj : ∀ l1 l2 : List Nat, (∀ d ∈ l1, d < 10) → (∀ d ∈ l2, d < 10) →
    l1.map digitChar = l2.map digitChar → l1 = l2 := by
  intro l1
  induction l1 with
  | nil =>
    intro l2 _ _ he
    simp only [List.map_nil] at he
    exact (List.map_eq_nil_iff.1 he.symm).symm
  | cons a t ih =>
    intro l2 h1 h2 he
    cases l2 with
    | nil => simp at he
    | cons b t2 =>
      simp only [List.map_cons, List.cons.injEq] at he
      have ha : a = b :=
        digitChar_lt10_inj a (h1 a (List.mem_cons_self a t)) b
          (h2 b (List.mem_cons_self b t2)) he.1
      have ht : t = t2 :=
        ih t2 (fun d hd => h1 d (List.mem_cons_of_mem a hd))
          (fun d hd => h2 d (List.mem_cons_of_mem b hd)) he.2
      rw [ha, ht]

theorem pyStr_inj : Function.Injective pyStr := by
  intro a b h
  unfold pyStr at h
  have hdata := stringEq_data.1 h
  simp only [List.map_reverse] at hdata
  have hrev := List.reverse_injective hdata
  have hdig : natDigits a = natDigits b :=
    map_digitChar_inj _ _ (fun d hd => natDigitsAux_lt10 _ _ d hd)
      (fun d hd => natDigitsAux_lt10 _ _ d hd) hrev
  have := congrArg digitsVal hdig
  rwa [natDigits_val, natDigits_val] at this

theorem pyStr_length_pos (n : Nat) : 0 < (pyStr n).length := by
  show 0 < (((natDigits n).reverse).map digitChar).length
  simp only [List.length_map, List.length_reverse]
  cases hd : natDigits n with
  | nil => exact absurd hd (natDigits_ne_nil n)
  | cons a t => simp

theorem backupCandidate_inj (ts : String) : Function.Injective (backupCandidate ts) := by
  intro a b h
  match a, b with
  | 0, 0 => rfl
  | 0, Nat.succ k =>
    exfalso
    have hlen := congrArg String.length h
    simp only [backupCandidate, String.length_append] at hlen
    have := pyStr_length_pos (k + 1)
    omega
  | Nat.succ k, 0 =>
    exfalso
    have hlen := congrArg String.length h
    simp only [backupCandidate, String.length_append] at hlen
    have := pyStr_length_pos (k + 1)
    omega
  | Nat.succ j, Nat.succ k =>
    have hdata := stringEq_data.1 h
    simp only [backupCandidate, String.data_append, List.append_assoc] at hdata
    have h1 := List.append_cancel_left hdata
    have h2 := List.append_cancel_left h1
    have h3 := List.append_cancel_left h2
    have : pyStr (j + 1) = pyStr (k + 1) := stringEq_data.2 h3
    have := pyStr_inj this
    omega

theorem exists_fresh_candidate (names : List String) (ts : String) :
    ∃ j, j ≤ names.length ∧ backupCandidate ts j ∉ names := by
  by_contra h
  push_neg at h
  have hmaps : ∀ a ∈ Finset.range (names.length + 1), backupCandidate ts a ∈ names.toFinset := by
    intro a ha
    rw [List.mem_toFinset]
    exact h a (by have := Finset.mem_range.1 ha; omega)
  have hinj : Set.InjOn (backupCandidate ts) (Finset.range (names.length + 1)) :=
    fun a _ b _ hab => backupCandidate_inj ts hab
  have hcard := Finset.card_le_card_of_injOn _ hmaps hinj
  rw [Finset.card_range] at hcard
  have hlen := names.toFinset_card_le
  omega

theorem findBackupFrom_fresh (names : List String) (ts : String) :
    ∀ fuel k, (∃ j, j < fuel ∧ backupCandidate ts (k + j) ∉ names) →
      findBackupFrom names ts fuel k ∉ names := by
  intro fuel
  induction fuel with
  | zero =>
    rintro k ⟨j, hj, _⟩
    omega
  | succ f ih =>
    rintro k ⟨j, hj, hfree⟩
    unfold findBackupFrom
    by_cases hc : backupCandidate ts k ∈ names
    · rw [if_pos hc]
      apply ih
      cases j with
      | zero => exact absurd (by simpa using hfree) (by simp [hc])
      | succ j2 =>
        exact ⟨j2, by omega, by rw [show k + 1 + j2 = k + (j2 + 1) by omega]; exact hfree⟩
    · rw [if_neg hc]
      exact hc

theorem findBackupName_fresh (names : List String) (ts : String) :
    findBackupName names ts ∉ names := by
  obtain ⟨j, hj, hfree⟩ := exists_fresh_candidate names ts
  exact findBackupFrom_fresh names ts (names.length + 1) 0
    ⟨j, by omega, by rwa [Nat.zero_add]⟩

theorem findBackupFrom_is_candidate (names : List String) (ts : String) :
    ∀ fuel k, ∃ j, findBackupFrom names ts fuel k = backupCandidate ts j := by
  intro fuel
  induction fuel with
  | zero => intro k; exact ⟨k, rfl⟩
  | succ f ih =>
    intro k
    unfold findBackupFrom
    by_cases hc : backupCandidate ts k ∈ names
    · rw [if_pos hc]; exact ih (k + 1)
    · rw [if_neg hc]; exact ⟨k, rfl⟩

theorem backupCandidate_data (ts : String) (k : Nat) :
    ∃ suffix, (backupCandidate ts k).data = ("backup_" ++ ts).data ++ suffix := by
  cases k with
  | zero => exact ⟨[], (List.append_nil _).symm⟩
  | succ k2 =>
    refine ⟨("_" ++ pyStr (k2 + 1)).data, ?_⟩
    simp [backupCandidate, String.data_append, List.append_assoc]

theorem alookup_insert_self {α : Type} (k : String) (v : α) (l : List (String × α)) :
    alookup k (alistInsert k v l) = some v := by
  induction l with
  | nil => simp [alistInsert, alookup]
  | cons kv rest ih =>
    obtain ⟨k2, v2⟩ := kv
    unfold alistInsert
    by_cases hc : k2 = k
    · rw [if_pos hc]
      simp [alookup]
    · rw [if_neg hc]
      unfold alookup
      rw [if_neg hc]
      exact ih

theorem alookup_insert_other {α : Type} {k k2 : String} (h : k2 ≠ k) (v : α)
    (l : List (String × α)) : alookup k (alistInsert k2 v l) = alookup k l := by
  induction l with
  | nil => simp [alistInsert, alookup, h]
  | cons kv rest ih =>
    obtain ⟨k3, v3⟩ := kv
    unfold alistInsert
    by_cases hc : k3 = k2
    · rw [if_pos hc]
      unfold alookup
      rw [if_neg h, if_neg (hc ▸ h)]
    · rw [if_neg hc]
      unfold alookup
      by_cases hk : k3 = k
      · rw [if_pos hk, if_pos hk]
      · rw [if_neg hk, if_neg hk]
        exact ih

theorem alookup_eq_none_of_not_mem {α : Type} {k : String} {l : List (String × α)}
    (h : k ∉ l.map Prod.fst) : alookup k l = none := by
  induction l with
  | nil => rfl
  | cons kv rest ih =>
    obtain ⟨k2, v2⟩ := kv
    simp only [List.map_cons, List.mem_cons, not_or] at h
    unfold alookup
    rw [if_neg (fun he => h.1 he.symm)]
    exact ih h.2

theorem alookup_copy {α : Type} :
    ∀ (src : List (String × α)), (src.map Prod.fst).Nodup →
      ∀ (dest : List (String × α)) (k : String),
        alookup k (src.foldl (fun acc kv => alistInsert kv.1 kv.2 acc) dest) =
          (match alookup k src with
           | some v => some v
           | none => alookup k dest) := by
  intro src
  induction src with
  | nil => intro _ dest k; rfl
  | cons kv rest ih =>
    intro hnd dest k
    obtain ⟨k0, v0⟩ := kv
    simp only [List.map_cons, List.nodup_cons] at hnd
    show alookup k (rest.foldl (fun acc kv => alistInsert kv.1 kv.2 acc) (alistInsert k0 v0 dest)) = _
    rw [ih hnd.2 (alistInsert k0 v0 dest) k]
    by_cases hk : k0 = k
    · subst hk
      have hres : alookup k0 rest = none := alookup_eq_none_of_not_mem hnd.1
      have hcons : alookup k0 ((k0, v0) :: rest) = some v0 := by
        show (if k0 = k0 then some v0 else alookup k0 rest) = some v0
        rw [if_pos rfl]
      rw [hres, hcons]
      exact alookup_insert_self k0 v0 dest
    · have hcons : alookup k ((k0, v0) :: rest) = alookup k rest := by
        show (if k0 = k then some v0 else alookup k rest) = alookup k rest
        rw [if_neg hk]
      rw [hcons]
      cases h : alookup k rest with
      | some v => rfl
      | none => exact alookup_insert_other hk v0 dest

theorem dropWhile_all_false {p : Char → Bool} {l : List Char}
    (h : ∀ c ∈ l, p c = false) : l.dropWhile p = l := by
  cases l with
  | nil => rfl
  | cons a rest =>
    rw [List.dropWhile_cons, if_neg (by rw [h a (List.mem_cons_self a rest)]; simp)]

theorem pyStrip_id {s : String} (h : ∀ c ∈ s.data, c.isWhitespace = false) :
    pyStrip s = s := by
  unfold pyStrip
  rw [dropWhile_all_false h,
    dropWhile_all_false (fun c hc => h c (List.mem_reverse.1 hc)), List.reverse_reverse]

theorem sanitize_id {s : String} (hk : ∀ c ∈ s.data, keepChar c = true)
    (hw : ∀ c ∈ s.data, c.isWhitespace = false) : sanitizeName s = s := by
  unfold sanitizeName
  rw [List.filter_eq_self.mpr hk]
  exact pyStrip_id hw

/-- Characters that survive sanitization untouched: kept by the filter
and not whitespace. -/
def goodChar (c : Char) : Prop := keepChar c = true ∧ c.isWhitespace = false

instance goodCharDecidable : DecidablePred goodChar :=
  fun c => decidable_of_iff (keepChar c = true ∧ c.isWhitespace = false) Iff.rfl

theorem digitChar_good : ∀ n, goodChar (digitChar n) := by
  intro n
  unfold digitChar
  split <;> exact (by decide)

theorem pyStr_chars_good (n : Nat) : ∀ c ∈ (pyStr n).data, goodChar c := by
  intro c hc
  have hmem : c ∈ ((natDigits n).reverse).map digitChar := hc
  obtain ⟨d, _, rfl⟩ := List.mem_map.1 hmem
  exact digitChar_good d

theorem backupCandidate_chars_good {ts : String} (hts : ∀ c ∈ ts.data, goodChar c) (k : Nat) :
    ∀ c ∈ (backupCandidate ts k).data, goodChar c := by
  have hfix : ∀ c ∈ ("backup_" : String).data, goodChar c := by decide
  have hus : ∀ c ∈ ("_" : String).data, goodChar c := by decide
  cases k with
  | zero =>
    intro c hc
    rw [show (backupCandidate ts 0).data = ("backup_" : String).data ++ ts.data from
      String.data_append _ _] at hc
    rcases List.mem_append.1 hc with h | h
    · exact hfix c h
    · exact hts c h
  | succ k2 =>
    intro c hc
    rw [show (backupCandidate ts (Nat.succ k2)).data =
        (("backup_" : String).data ++ ts.data ++ ("_" : String).data) ++ (pyStr (k2 + 1)).data by
      simp [backupCandidate, String.data_append]] at hc
    rcases List.mem_append.1 hc with h | h
    · rcases List.mem_append.1 h with h | h
      · rcases List.mem_append.1 h with h | h
        · exact hfix c h
        · exact hts c h
      · exact hus c h
    · exact pyStr_chars_good (k2 + 1) c h

theorem sanitize_backupCandidate {ts : String} (hts : ∀ c ∈ ts.data, goodChar c) (k : Nat) :
    sanitizeName (backupCandidate ts k) = backupCandidate ts k :=
  sanitize_id (fun c hc => (backupCandidate_chars_good hts k c hc).1)
    (fun c hc => (backupCandidate_chars_good hts k c hc).2)

theorem backupCandidate_ne_empty (ts : String) (k : Nat) : backupCandidate ts k ≠ "" := by
  intro h
  have hlen := congrArg String.length h
  have h7 : ("backup_" : String).length = 7 := by decide
  have h1 : ("_" : String).length = 1 := by decide
  have h0 : ("" : String).length = 0 := rfl
  cases k with
  | zero =>
    rw [show backupCandidate ts 0 = "backup_" ++ ts from rfl, String.length_append, h7, h0]
      at hlen
    omega
  | succ k2 =>
    rw [show backupCandidate ts (Nat.succ k2) = "backup_" ++ ts ++ "_" ++ pyStr (k2 + 1)
        from rfl, String.length_append, String.length_append, String.length_append,
      h7, h1, h0] at hlen
    have := pyStr_length_pos (k2 + 1)
    omega

theorem pyStrip_backupCandidate {ts : String} (hts : ∀ c ∈ ts.data, goodChar c) (k : Nat) :
    pyStrip (backupCandidate ts k) = backupCandidate ts k :=
  pyStrip_id (fun c hc => (backupCandidate_chars_good hts k c hc).2)

theorem alookup_filter_out {α : Type} {k : String} {p : String × α → Bool}
    (hp : ∀ v, p (k, v) = false) :
    ∀ l : List (String × α), alookup k (l.filter p) = none := by
  intro l
  induction l with
  | nil => rfl
  | cons kv rest ih =>
    obtain ⟨k2, v2⟩ := kv
    rw [List.filter_cons]
    by_cases hpk : p (k2, v2) = true
    · rw [if_pos hpk]
      have hne : k2 ≠ k := by
        intro he
        subst he
        rw [hp v2] at hpk
        exact Bool.false_ne_true hpk
      unfold alookup
      rw [if_neg hne]
      exact ih
    · rw [if_neg hpk]
      exact ih

theorem alookup_filter_none {α : Type} {k : String} {l : List (String × α)}
    (h : alookup k l = none) (p : String × α → Bool) : alookup k (l.filter p) = none := by
  induction l with
  | nil => rfl
  | cons kv rest ih =>
    obtain ⟨k2, v2⟩ := kv
    have hcons : alookup k ((k2, v2) :: rest) = if k2 = k then some v2 else alookup k rest := rfl
    rw [hcons] at h
    by_cases hk : k2 = k
    · rw [if_pos hk] at h
      exact absurd h (by simp)
    · rw [if_neg hk] at h
      rw [List.filter_cons]
      by_cases hpk : p (k2, v2) = true
      · rw [if_pos hpk]
        unfold alookup
        rw [if_neg hk]
        exact ih h
      · rw [if_neg hpk]
        exact ih h

theorem clearStep_self (acc : List (String × List (String × String))) (d : String) :
    alookup d (clearStep acc d) = (alookup d acc).map (fun _ => ([] : List (String × String))) := by
  unfold clearStep
  cases h : alookup d acc with
  | none => rw [if_neg (by simp), h]; rfl
  | some v =>
    rw [if_pos (show (some v).isSome = true from rfl), alookup_insert_self]
    rfl

theorem clearStep_other {d d2 : String} (h : d2 ≠ d)
    (acc : List (String × List (String × String))) :
    alookup d (clearStep acc d2) = alookup d acc := by
  unfold clearStep
  by_cases h2 : (alookup d2 acc).isSome = true
  · rw [if_pos h2]
    exact alookup_insert_other h [] acc
  · rw [if_neg h2]

theorem clearSessionDirs_lookup (dirs : List (String × List (String × String))) :
    ∀ d ∈ sessionDirNames, alookup d (clearSessionDirs dirs) =
      (alookup d dirs).map (fun _ => ([] : List (String × String))) := by
  intro d hd
  have heq : clearSessionDirs dirs =
      clearStep (clearStep (clearStep dirs "sessions") "shell-snapshots") "statsig" := rfl
  rw [heq]
  simp only [sessionDirNames, List.mem_cons, List.not_mem_nil, or_false] at hd
  rcases hd with rfl | rfl | rfl
  · rw [clearStep_other (by decide), clearStep_other (by decide), clearStep_self]
  · rw [clearStep_other (by decide), clearStep_self, clearStep_other (by decide)]
  · rw [clearStep_self, clearStep_other (by decide), clearStep_other (by decide)]

theorem saveAccount_stable_ok (oauth : String → Option String) (now : String)
    {bname : String} {st : AccountStore} {creds : String}
    (hsan : sanitizeName bname = bname) (hstrip : pyStrip bname = bname)
    (hne : bname ≠ "")
    (hcreds : alookup ".credentials.json" st.activeDir.files = some creds) :
    saveAccount oauth now bname st = Except.ok
      { accountsDirs :=
          alistInsert bname
            (copySnapshot ((alookup bname st.accountsDirs).getD emptySnapshot) st.activeDir)
            st.accountsDirs,
        metadata :=
          { accounts :=
              alistInsert bname
                { created :=
                    (match alookup bname st.metadata.accounts with
                     | some m => m.created
                     | none => now),
                  lastUsed := now,
                  accountType := (oauth creds).getD "Pro" }
                st.metadata.accounts,
            active := some bname },
        activeDir := st.activeDir } := by
  unfold saveAccount
  rw [hstrip, hsan, if_neg hne, if_neg hne, hcreds]

theorem saveAccount_activeDir {oauth : String → Option String} {now name : String}
    {st st1 : AccountStore} (h : saveAccount oauth now name st = Except.ok st1) :
    st1.activeDir = st.activeDir := by
  unfold saveAccount at h
  split at h
  · exact Except.noConfusion h
  · split at h
    · exact Except.noConfusion h
    · split at h
      · exact Except.noConfusion h
      · injection h with h2
        rw [← h2]

theorem saveAccount_ok_active {oauth : String → Option String} {now name : String}
    {st st1 : AccountStore} (h : saveAccount oauth now name st = Except.ok st1) :
    st1.metadata.active = some (sanitizeName name) ∧ sanitizeName name ≠ "" := by
  unfold saveAccount at h
  split at h
  · exact Except.noConfusion h
  · rename_i hsan
    split at h
    · exact Except.noConfusion h
    · rename_i hsan2
      split at h
      · exact Except.noConfusion h
      · injection h with h2
        rw [← h2]
        exact ⟨rfl, hsan2⟩

theorem copy_empty_lookup {α : Type} {src : List (String × α)}
    (hnd : (src.map Prod.fst).Nodup) (k : String) :
    alookup k (src.foldl (fun acc kv => alistInsert kv.1 kv.2 acc) []) = alookup k src := by
  rw [alookup_copy src hnd [] k]
  cases h : alookup k src <;> rfl

/-- C7: when the active directory holds credentials, new_account first
snapshots every file and subdirectory of the active directory under a
fresh profile name starting backup_<timestamp> (colliding with no
existing profile directory), then removes the known credential and
session files from the active directory, recreates the session
subdirectories that existed as empty ones, and leaves the index with no
active profile. -/
theorem c7_new_account :
    ∀ (oauth : String → Option String) (now ts : String) (st : AccountStore),
      (∀ c ∈ ts.data, goodChar c) →
      ∀ creds, alookup ".credentials.json" st.activeDir.files = some creds →
      (st.activeDir.files.map Prod.fst).Nodup →
      (st.activeDir.dirs.map Prod.fst).Nodup →
      ∃ st2 : AccountStore, newAccount oauth now ts st = Except.ok (true, st2) ∧
        findBackupName (st.accountsDirs.map Prod.fst) ts ∉ st.accountsDirs.map Prod.fst ∧
        (∃ suffix, (findBackupName (st.accountsDirs.map Prod.fst) ts).data =
          ("backup_" ++ ts).data ++ suffix) ∧
        (∃ snap, alookup (findBackupName (st.accountsDirs.map Prod.fst) ts) st2.accountsDirs
            = some snap ∧
          (∀ f, alookup f snap.files = alookup f st.activeDir.files) ∧
          (∀ d, alookup d snap.dirs = alookup d st.activeDir.dirs)) ∧
        (∀ f ∈ credentialFileNames, alookup f st2.activeDir.files = none) ∧
        (∀ d ∈ sessionDirNames, alookup d st2.activeDir.dirs =
          (alookup d st.activeDir.dirs).map (fun _ => ([] : List (String × String)))) ∧
        st2.metadata.active = none := by
  intro oauth now ts st hts creds hcreds hndF hndD
  have hfresh := findBackupName_fresh (st.accountsDirs.map Prod.fst) ts
  obtain ⟨j, hj⟩ : ∃ j, findBackupName (st.accountsDirs.map Prod.fst) ts =
      backupCandidate ts j :=
    findBackupFrom_is_candidate (st.accountsDirs.map Prod.fst) ts
      ((st.accountsDirs.map Prod.fst).length + 1) 0
  have hsan : sanitizeName (findBackupName (st.accountsDirs.map Prod.fst) ts) =
      findBackupName (st.accountsDirs.map Prod.fst) ts := by
    rw [hj]; exact sanitize_backupCandidate hts j
  have hstrip : pyStrip (findBackupName (st.accountsDirs.map Prod.fst) ts) =
      findBackupName (st.accountsDirs.map Prod.fst) ts := by
    rw [hj]; exact pyStrip_backupCandidate hts j
  have hne : findBackupName (st.accountsDirs.map Prod.fst) ts ≠ "" := by
    rw [hj]; exact backupCandidate_ne_empty ts j
  have hlooknone : alookup (findBackupName (st.accountsDirs.map Prod.fst) ts)
      st.accountsDirs = none :=
    alookup_eq_none_of_not_mem hfresh
  have hsave := saveAccount_stable_ok oauth now hsan hstrip hne hcreds
  rw [hlooknone] at hsave
  refine ⟨{ accountsDirs :=
              alistInsert (findBackupName (st.accountsDirs.map Prod.fst) ts)
                (copySnapshot (Option.getD none emptySnapshot) st.activeDir)
                st.accountsDirs,
            metadata :=
              { accounts :=
                  alistInsert (findBackupName (st.accountsDirs.map Prod.fst) ts)
                    { created :=
                        (match alookup (findBackupName (st.accountsDirs.map Prod.fst) ts)
                            st.metadata.accounts with
                         | some m => m.created
                         | none => now),
                      lastUsed := now,
                      accountType := (oauth creds).getD "Pro" }
                    st.metadata.accounts,
                active := none },
            activeDir :=
              { files :=
                  (st.activeDir.files.filter
                      (fun kv => decide (kv.1 ∉ credentialFileNames))).filter
                    (fun kv => !isCredBackupFile kv.1),
                dirs := clearSessionDirs st.activeDir.dirs } }, ?_, hfresh,
    hj ▸ backupCandidate_data ts j, ?_, ?_, ?_, rfl⟩
  · unfold newAccount
    rw [hcreds, if_pos (show (some creds).isSome = true from rfl), hsave]
    rfl
  · refine ⟨copySnapshot (Option.getD none emptySnapshot) st.activeDir,
      alookup_insert_self _ _ _, ?_, ?_⟩
    · intro f
      exact copy_empty_lookup hndF f
    · intro d
      exact copy_empty_lookup hndD d
  · intro f hf
    apply alookup_filter_none
    apply alookup_filter_out
    intro v
    simp [hf]
  · intro d hd
    exact clearSessionDirs_lookup st.activeDir.dirs d hd

/-- Concrete account store with an active credential set, a saved
profile named work, and session plus project directories. -/
def wStore : AccountStore :=
  { accountsDirs := [("work", emptySnapshot)],
    metadata :=
      { accounts := [("work", { created := "2024", lastUsed := "2024", accountType := "Pro" })],
        active := some "work" },
    activeDir :=
      { files := [(".credentials.json", "blob"), ("settings.json", "s")],
        dirs := [("sessions", [("a", "1")]), ("projects", [("p", "2")])] } }

theorem c7_new_account_witness :
    ∃ st2 : AccountStore,
      newAccount (fun _ => some "Max") "2025-01-01" "20250101_120000" wStore =
        Except.ok (true, st2) ∧
      findBackupName (wStore.accountsDirs.map Prod.fst) "20250101_120000"
          ∉ wStore.accountsDirs.map Prod.fst ∧
      (∃ suffix, (findBackupName (wStore.accountsDirs.map Prod.fst) "20250101_120000").data =
        ("backup_" ++ "20250101_120000").data ++ suffix) ∧
      (∃ snap, alookup (findBackupName (wStore.accountsDirs.map Prod.fst) "20250101_120000")
          st2.accountsDirs = some snap ∧
        (∀ f, alookup f snap.files = alookup f wStore.activeDir.files) ∧
        (∀ d, alookup d snap.dirs = alookup d wStore.activeDir.dirs)) ∧
      (∀ f ∈ credentialFileNames, alookup f st2.activeDir.files = none) ∧
      (∀ d ∈ sessionDirNames, alookup d st2.activeDir.dirs =
        (alookup d wStore.activeDir.dirs).map (fun _ => ([] : List (String × String)))) ∧
      st2.metadata.active = none :=
  c7_new_account (fun _ => some "Max") "2025-01-01" "20250101_120000" wStore
    (by decide) "blob" (by decide) (by decide) (by decide)

/-- Concrete minimal store with credentials in the active directory. -/
def cst10 : AccountStore :=
  { accountsDirs := [],
    metadata := { accounts := [], active := none },
    activeDir := { files := [(".credentials.json", "blob")], dirs := [] } }

/-- Concrete result of saving the active credentials of cst10 under the
name cuti followed by a space. -/
def cst10Saved : AccountStore :=
  { accountsDirs := [("cuti", { files := [(".credentials.json", "blob")], dirs := [] })],
    metadata :=
      { accounts := [("cuti", { created := "t", lastUsed := "t", accountType := "Pro" })],
        active := some "cuti" },
    activeDir := { files := [(".credentials.json", "blob")], dirs := [] } }

/-- C10 counterexample: the claim describes the sanitized form as only a
character filter, but save_account also strips surrounding whitespace:
saving under the name cuti followed by a space sets the active pointer
to cuti, not to the filtered-only form that keeps the trailing space. -/
theorem c10_sanitize_counterexample :
    ¬ (∀ (oauth : String → Option String) (now name : String) (st st2 : AccountStore),
        saveAccount oauth now name st = Except.ok st2 →
        st2.metadata.active = some (claimSanitize name)) := by
  intro h
  have h2 := h (fun _ => none) "t" "cuti " cst10 cst10Saved rfl
  exact absurd h2 (by decide)

/-- C10 amended: whenever save_account succeeds, the active pointer of
the index is set to the sanitized form of the name: non-alphanumeric
characters other than dash, underscore and space removed, then
surrounding whitespace stripped; the sanitized name is never empty on
success. -/
theorem c10_save_sets_active :
    ∀ (oauth : String → Option String) (now name : String) (st st2 : AccountStore),
      saveAccount oauth now name st = Except.ok st2 →
      st2.metadata.active = some (sanitizeName name) ∧ sanitizeName name ≠ "" :=
  fun _ _ _ _ _ h => saveAccount_ok_active h

theorem c10_save_sets_active_witness :
    cst10Saved.metadata.active = some (sanitizeName "cuti ") ∧ sanitizeName "cuti " ≠ "" :=
  c10_save_sets_active (fun _ => none) "t" "cuti " cst10 cst10Saved rfl

/-- C8 counterexample: the claim asserts that a corrupt index file is
renamed aside with a .corrupt suffix; _load_metadata of the account
manager only catches the exception and returns the empty index, leaving
the corrupt file exactly where it was and creating no .corrupt file. -/
theorem c8_corrupt_rename_counterexample :
    ¬ (∀ (parse : String → Option AccountsMetadata) (fs : MetaFs) (content : String),
        fs.metadataFile = some content → parse content = none →
        (loadMetadata parse fs).1 = emptyMetadata ∧
        (loadMetadata parse fs).2.metadataFile = none ∧
        (loadMetadata parse fs).2.corruptFile = some content) := by
  intro h
  have h2 := h (fun _ => none) { metadataFile := some "garbage", corruptFile := none }
    "garbage" rfl rfl
  exact absurd h2.2.2 (by decide)

/-- C8 amended: loading the accounts metadata index never blocks or
raises (it is a total function): when the on-disk index file is absent
or its content does not decode, the load returns the empty index; the
filesystem is left untouched, so a corrupt file stays in place under its
own name and no .corrupt rename happens. -/
theorem c8_load_total_amended :
    ∀ (parse : String → Option AccountsMetadata) (fs : MetaFs),
      (loadMetadata parse fs).2 = fs ∧
      (fs.metadataFile = none → (loadMetadata parse fs).1 = emptyMetadata) ∧
      (∀ content, fs.metadataFile = some content → parse content = none →
        (loadMetadata parse fs).1 = emptyMetadata) := by
  intro parse fs
  refine ⟨rfl, ?_, ?_⟩
  · intro h
    show (match fs.metadataFile with
          | none => emptyMetadata
          | some content => (parse content).getD emptyMetadata) = emptyMetadata
    rw [h]
  · intro content h hp
    show (match fs.metadataFile with
          | none => emptyMetadata
          | some content => (parse content).getD emptyMetadata) = emptyMetadata
    rw [h]
    show (parse content).getD emptyMetadata = emptyMetadata
    rw [hp]
    rfl

theorem c8_load_total_amended_witness :
    (loadMetadata (fun _ => none) { metadataFile := some "garbage", corruptFile := none }).2 =
      { metadataFile := some "garbage", corruptFile := none } ∧
    (loadMetadata (fun _ => none) { metadataFile := some "garbage", corruptFile := none }).1 =
      emptyMetadata :=
  ⟨(c8_load_total_amended (fun _ => none)
      { metadataFile := some "garbage", corruptFile := none }).1,
   (c8_load_total_amended (fun _ => none)
      { metadataFile := some "garbage", corruptFile := none }).2.2 "garbage" rfl rfl⟩

/-- Translated from WebSocketManager.broadcast
(src/cuti/web/api/websocket.py lines 39-45) under CPython list-iterator
semantics: the for loop walks the connection list by index while the
except branch removes the failing connection from that same list, which
shifts every later element one slot left, so the element immediately
after a removed one is skipped: it stays subscribed and no send is
attempted to it.  The skip flag records that shift.  The result is the
remaining connection list paired with the list of connections a send was
attempted to.  The bare except swallows every send failure, so the pass
is a total function. -/
def broadcastGo {α : Type} (fails : α → Bool) (skip : Bool) : List α → List α × List α
| [] => ([], [])
| c :: rest =>
  if skip then
    (c :: (broadcastGo fails false rest).1, (broadcastGo fails false rest).2)
  else if fails c then
    ((broadcastGo fails true rest).1, c :: (broadcastGo fails true rest).2)
  else
    (c :: (broadcastGo fails false rest).1, c :: (broadcastGo fails false rest).2)

/-- Translated from WebSocketManager.broadcast of
src/cuti/web/api/websocket.py: one broadcast pass over the subscriber
list of a channel, starting with no pending iterator shift. -/
def broadcastRun {α : Type} (fails : α → Bool) (l : List α) : List α × List α :=
  broadcastGo fails false l

/-- Translated from WebSocketManager.broadcast of src/ccutils/web/main.py
lines 66-71: there the except branch is pass, so every connection is
attempted and none is ever removed. -/
def ccBroadcast {α : Type} (l : List α) : List α × List α := (l, l)

theorem broadcastGo_skip_fst {α : Type} (fails : α → Bool) (a : α) (rest : List α) :
    (broadcastGo fails true (a :: rest)).1 = a :: (broadcastGo fails false rest).1 := rfl

theorem broadcastGo_skip_snd {α : Type} (fails : α → Bool) (a : α) (rest : List α) :
    (broadcastGo fails true (a :: rest)).2 = (broadcastGo fails false rest).2 := rfl

theorem broadcastGo_fail_eq {α : Type} {fails : α → Bool} {a : α} (hfa : fails a = true)
    (rest : List α) :
    broadcastGo fails false (a :: rest) =
      ((broadcastGo fails true rest).1, a :: (broadcastGo fails true rest).2) := by
  show (if fails a = true then
        ((broadcastGo fails true rest).1, a :: (broadcastGo fails true rest).2)
      else (a :: (broadcastGo fails false rest).1, a :: (broadcastGo fails false rest).2)) = _
  rw [if_pos hfa]

theorem broadcastGo_fail_fst {α : Type} {fails : α → Bool} {a : α} (hfa : fails a = true)
    (rest : List α) :
    (broadcastGo fails false (a :: rest)).1 = (broadcastGo fails true rest).1 := by
  rw [broadcastGo_fail_eq hfa rest]

theorem broadcastGo_fail_snd {α : Type} {fails : α → Bool} {a : α} (hfa : fails a = true)
    (rest : List α) :
    (broadcastGo fails false (a :: rest)).2 = a :: (broadcastGo fails true rest).2 := by
  rw [broadcastGo_fail_eq hfa rest]

theorem broadcastGo_ok_eq {α : Type} {fails : α → Bool} {a : α} (hfa : fails a = false)
    (rest : List α) :
    broadcastGo fails false (a :: rest) =
      (a :: (broadcastGo fails false rest).1, a :: (broadcastGo fails false rest).2) := by
  show (if fails a = true then
        ((broadcastGo fails true rest).1, a :: (broadcastGo fails true rest).2)
      else (a :: (broadcastGo fails false rest).1, a :: (broadcastGo fails false rest).2)) = _
  rw [if_neg (by rw [hfa]; exact Bool.false_ne_true)]

theorem broadcastGo_ok_fst {α : Type} {fails : α → Bool} {a : α} (hfa : fails a = false)
    (rest : List α) :
    (broadcastGo fails false (a :: rest)).1 = a :: (broadcastGo fails false rest).1 := by
  rw [broadcastGo_ok_eq hfa rest]

theorem broadcastGo_ok_snd {α : Type} {fails : α → Bool} {a : α} (hfa : fails a = false)
    (rest : List α) :
    (broadcastGo fails false (a :: rest)).2 = a :: (broadcastGo fails false rest).2 := by
  rw [broadcastGo_ok_eq hfa rest]

theorem broadcastGo_surv_subset {α : Type} (fails : α → Bool) :
    ∀ (l : List α) (skip : Bool), ∀ c ∈ (broadcastGo fails skip l).1, c ∈ l := by
  intro l
  induction l with
  | nil => intro skip c hc; cases skip <;> simp [broadcastGo] at hc
  | cons a rest ih =>
    intro skip c hc
    cases skip with
    | true =>
      rw [broadcastGo_skip_fst] at hc
      rcases List.mem_cons.1 hc with rfl | hc
      · exact List.mem_cons_self _ _
      · exact List.mem_cons_of_mem a (ih false c hc)
    | false =>
      by_cases hfa : fails a = true
      · rw [broadcastGo_fail_fst hfa] at hc
        exact List.mem_cons_of_mem a (ih true c hc)
      · rw [broadcastGo_ok_fst (by revert hfa; cases fails a <;> simp)] at hc
        rcases List.mem_cons.1 hc with rfl | hc
        · exact List.mem_cons_self _ _
        · exact List.mem_cons_of_mem a (ih false c hc)

theorem broadcastGo_att_subset {α : Type} (fails : α → Bool) :
    ∀ (l : List α) (skip : Bool), ∀ c ∈ (broadcastGo fails skip l).2, c ∈ l := by
  intro l
  induction l with
  | nil => intro skip c hc; cases skip <;> simp [broadcastGo] at hc
  | cons a rest ih =>
    intro skip c hc
    cases skip with
    | true =>
      rw [broadcastGo_skip_snd] at hc
      exact List.mem_cons_of_mem a (ih false c hc)
    | false =>
      by_cases hfa : fails a = true
      · rw [broadcastGo_fail_snd hfa] at hc
        rcases List.mem_cons.1 hc with rfl | hc
        · exact List.mem_cons_self _ _
        · exact List.mem_cons_of_mem a (ih true c hc)
      · rw [broadcastGo_ok_snd (by revert hfa; cases fails a <;> simp)] at hc
        rcases List.mem_cons.1 hc with rfl | hc
        · exact List.mem_cons_self _ _
        · exact List.mem_cons_of_mem a (ih false c hc)

theorem broadcastGo_removes {α : Type} (fails : α → Bool) :
    ∀ (l : List α), l.Nodup → ∀ (skip : Bool), ∀ c ∈ (broadcastGo fails skip l).2,
      fails c = true → c ∉ (broadcastGo fails skip l).1 := by
  intro l
  induction l with
  | nil => intro _ skip c hc; cases skip <;> simp [broadcastGo] at hc
  | cons a rest ih =>
    intro hnd skip c hc hf
    rw [List.nodup_cons] at hnd
    cases skip with
    | true =>
      rw [broadcastGo_skip_snd] at hc
      rw [broadcastGo_skip_fst]
      intro hmem
      rcases List.mem_cons.1 hmem with heq | hmem2
      · exact hnd.1 (heq ▸ broadcastGo_att_subset fails rest false c hc)
      · exact ih hnd.2 false c hc hf hmem2
    | false =>
      by_cases hfa : fails a = true
      · rw [broadcastGo_fail_snd hfa] at hc
        rw [broadcastGo_fail_fst hfa]
        rcases List.mem_cons.1 hc with heq | hc2
        · intro hmem
          exact hnd.1 (heq ▸ broadcastGo_surv_subset fails rest true c hmem)
        · exact ih hnd.2 true c hc2 hf
      · have hfa2 : fails a = false := by revert hfa; cases fails a <;> simp
        rw [broadcastGo_ok_snd hfa2] at hc
        rw [broadcastGo_ok_fst hfa2]
        rcases List.mem_cons.1 hc with heq | hc2
        · exact absurd (heq ▸ hf) hfa
        · intro hmem
          rcases List.mem_cons.1 hmem with heq2 | hmem2
          · exact hnd.1 (heq2 ▸ broadcastGo_att_subset fails rest false c hc2)
          · exact ih hnd.2 false c hc2 hf hmem2

theorem broadcastGo_keeps {α : Type} (fails : α → Bool) :
    ∀ (l : List α) (skip : Bool), ∀ c ∈ l, fails c = false →
      c ∈ (broadcastGo fails skip l).1 := by
  intro l
  induction l with
  | nil => intro skip c hc; simp at hc
  | cons a rest ih =>
    intro skip c hc hf
    cases skip with
    | true =>
      rw [broadcastGo_skip_fst]
      rcases List.mem_cons.1 hc with rfl | hc
      · exact List.mem_cons_self _ _
      · exact List.mem_cons_of_mem a (ih false c hc hf)
    | false =>
      by_cases hfa : fails a = true
      · rw [broadcastGo_fail_fst hfa]
        rcases List.mem_cons.1 hc with rfl | hc
        · exact absurd hfa (by rw [hf]; exact Bool.false_ne_true)
        · exact ih true c hc hf
      · have hfa2 : fails a = false := by revert hfa; cases fails a <;> simp
        rw [broadcastGo_ok_fst hfa2]
        rcases List.mem_cons.1 hc with rfl | hc
        · exact List.mem_cons_self _ _
        · exact List.mem_cons_of_mem a (ih false c hc hf)

/-- C9 counterexample: with two consecutive dead subscribers the
broadcast of cuti/web/api/websocket.py removes the first, but removing
it from the list being iterated shifts the iterator, so the second dead
subscriber is skipped: no send is attempted to it and it is not removed
from the active subscriber list. -/
theorem c9_removal_counterexample :
    ¬ (∀ (fails : Nat → Bool) (l : List Nat), ∀ c ∈ l, fails c = true →
        c ∉ (broadcastRun fails l).1) := by
  intro h
  exact h (fun _ => true) [0, 1] 1 (by decide) rfl (by decide)

/-- C9 amended: a broadcast pass never raises (it is a total function);
every subscriber to whom a send was attempted and failed is removed from
the active list, and every subscriber whose send succeeds stays; however
the subscriber immediately following a removed one is skipped in that
pass, because removal mutates the list being iterated: it stays
subscribed without being sent to, until a later broadcast reaches it.
In the ccutils copy of broadcast the failure branch is pass, so no
failing subscriber is ever removed there. -/
theorem c9_broadcast_amended :
    ∀ (α : Type) (fails : α → Bool) (l : List α), l.Nodup →
      (∀ c ∈ (broadcastRun fails l).2, fails c = true → c ∉ (broadcastRun fails l).1) ∧
      (∀ c ∈ l, fails c = false → c ∈ (broadcastRun fails l).1) ∧
      (∀ c ∈ (broadcastRun fails l).1, c ∈ l) ∧
      (ccBroadcast l).1 = l := by
  intro α fails l hnd
  exact ⟨broadcastGo_removes fails l hnd false,
    fun c hc hf => broadcastGo_keeps fails l false c hc hf,
    fun c hc => broadcastGo_surv_subset fails l false c hc, rfl⟩

theorem c9_broadcast_amended_witness :
    ((0 : Nat) ∉ (broadcastRun (fun c => decide (c = 0)) [0, 1, 2]).1) ∧
    ((2 : Nat) ∈ (broadcastRun (fun c => decide (c = 0)) [0, 1, 2]).1) :=
  ⟨(c9_broadcast_amended Nat (fun c => decide (c = 0)) [0, 1, 2] (by decide)).1 0
      (by decide) (by decide),
   (c9_broadcast_amended Nat (fun c => decide (c = 0)) [0, 1, 2] (by decide)).2.1 2
      (by decide) (by decide)⟩

end Cuti
